import Mathlib

/-
  Verification development for the rbd metadata controller (cls_rbd.cc).

  The controller manipulates a single metadata object per image: a
  key-value map (omap) for the new format, a flat binary header blob for
  the legacy format, and one shared counter object for block-id
  allocation.  Every public operation is one atomic call: it reads the
  frozen state, validates, and either fails (no write applies) or
  returns the new state.

  The embedding below models:
  - the omap as an association list of (key, value) pairs kept in
    strictly ascending key order (the order of the external key-value
    store adapter, which enumerates keys in byte-wise lexicographic
    order);
  - stored values as a sum type: each omap key holds one encoded value,
    and decoding a key at the wrong type fails with EIO, matching
    read_key's buffer::error handler;
  - each operation of cls_rbd.cc as a Lean function from the old state
    (plus decoded input) to `Except Err` of the new state and output.
-/

set_option maxHeartbeats 1000000

/-- Error codes returned by the operations (negative errno values in the
C source). -/
inductive Err where
  | EINVAL
  | ENOENT
  | EEXIST
  | EBUSY
  | ESTALE
  | Eio
  | ENOSYS
  | ENOEXEC
deriving DecidableEq, Repr

/-- Byte-wise lexicographic comparison of character lists, modeling the
comparison `std::string::operator<` / omap key order uses. -/
def charListLt : List Char → List Char → Bool
  | [], [] => false
  | [], _ :: _ => true
  | _ :: _, [] => false
  | a :: as, b :: bs =>
    if a.toNat < b.toNat then true
    else if b.toNat < a.toNat then false
    else charListLt as bs

/-- Lexicographic order on strings, as the C++ std::string comparison. -/
def strLtB (a b : String) : Bool :=
  charListLt a.data b.data

theorem charListLt_irrefl (l : List Char) : charListLt l l = false := by
  induction l with
  | nil => rfl
  | cons a as ih => simp [charListLt, ih]

theorem charListLt_asymm (a b : List Char) (h : charListLt a b = true) :
    charListLt b a = false := by
  induction a generalizing b with
  | nil =>
    cases b with
    | nil => simp [charListLt] at h
    | cons x xs => simp [charListLt]
  | cons x xs ih =>
    cases b with
    | nil => simp [charListLt] at h
    | cons y ys =>
      simp only [charListLt] at h ⊢
      rcases Nat.lt_trichotomy x.toNat y.toNat with hlt | heq | hgt
      · simp [hlt, Nat.lt_asymm hlt, Nat.lt_irrefl]
      · simp [heq, Nat.lt_irrefl] at h ⊢
        exact ih _ h
      · simp [hgt, Nat.lt_asymm hgt] at h

theorem charListLt_append (p a b : List Char) :
    charListLt (p ++ a) (p ++ b) = charListLt a b := by
  induction p with
  | nil => rfl
  | cons x xs ih => simp [charListLt, ih]

theorem charListLt_self_append (p : List Char) (x : List Char) (hx : x ≠ []) :
    charListLt p (p ++ x) = true := by
  induction p with
  | nil => cases x with
    | nil => exact absurd rfl hx
    | cons c cs => rfl
  | cons c cs ih => simp [charListLt, ih]

/-- Hexadecimal digit character for a value below 16, lowercase, as
produced by `std::hex` in `key_from_snap_id`. -/
def hexDigit (n : Nat) : Char :=
  if n < 10 then Char.ofNat (48 + n) else Char.ofNat (87 + n)

/-- Fixed-width big-endian hexadecimal rendering of a number, most
significant digit first, zero-filled to width `w`. -/
def hexChars : Nat → Nat → List Char
  | 0, _ => []
  | w + 1, n => hexDigit (n / 16 ^ w % 16) :: hexChars w (n % 16 ^ w)

/-- The omap key of a snapshot record: the common prefix followed by the
snapshot id as 16 zero-filled lowercase hex digits (key_from_snap_id). -/
def keyFromSnapId (i : Nat) : String :=
  ⟨"snapshot_".data ++ hexChars 16 i⟩

/-- Numeric value of a hexadecimal digit character (both cases), 0 for
other characters. -/
def hexVal (c : Char) : Nat :=
  if 48 ≤ c.toNat ∧ c.toNat ≤ 57 then c.toNat - 48
  else if 97 ≤ c.toNat ∧ c.toNat ≤ 102 then c.toNat - 87
  else if 65 ≤ c.toNat ∧ c.toNat ≤ 70 then c.toNat - 55
  else 0

/-- Whether a character is a hexadecimal digit, as accepted by the
`std::hex` istream extraction in `snap_id_from_key`. -/
def isHexDigitB (c : Char) : Bool :=
  (48 ≤ c.toNat && c.toNat ≤ 57) || (97 ≤ c.toNat && c.toNat ≤ 102) ||
    (65 ≤ c.toNat && c.toNat ≤ 70)

/-- Parse the snapshot id back out of a snapshot key: skip the 9
characters of the prefix, then read consecutive hex digits
(snap_id_from_key). -/
def snapIdFromKey (k : String) : Nat :=
  ((k.data.drop 9).takeWhile isHexDigitB).foldl (fun a c => a * 16 + hexVal c) 0

theorem hexChars_length (w n : Nat) : (hexChars w n).length = w := by
  induction w generalizing n with
  | zero => rfl
  | succ w ih => simp [hexChars, ih]

theorem hexVal_hexDigit (d : Nat) (hd : d < 16) : hexVal (hexDigit d) = d := by
  interval_cases d <;> decide

theorem isHexDigitB_hexDigit (d : Nat) (hd : d < 16) :
    isHexDigitB (hexDigit d) = true := by
  interval_cases d <;> decide

theorem hexDigit_toNat_lt (a b : Nat) (ha : a < 16) (hb : b < 16) (h : a < b) :
    (hexDigit a).toNat < (hexDigit b).toNat := by
  interval_cases a <;> interval_cases b <;> simp_all <;> decide

theorem hexChars_foldl (w : Nat) :
    ∀ n a, n < 16 ^ w →
      (hexChars w n).foldl (fun a c => a * 16 + hexVal c) a = a * 16 ^ w + n := by
  induction w with
  | zero => intro n a hn; interval_cases n; simp [hexChars]
  | succ w ih =>
    intro n a hn
    have hpos : 0 < 16 ^ w := Nat.pos_pow_of_pos w (by norm_num)
    have hdiv : n / 16 ^ w < 16 := by
      rw [Nat.div_lt_iff_lt_mul hpos]
      rw [pow_succ] at hn
      omega
    have hmod : n % 16 ^ w < 16 ^ w := Nat.mod_lt _ hpos
    have h16 : n / 16 ^ w % 16 < 16 := Nat.mod_lt _ (by norm_num)
    have hmm : n / 16 ^ w % 16 = n / 16 ^ w := Nat.mod_eq_of_lt hdiv
    simp only [hexChars, List.foldl_cons]
    rw [hexVal_hexDigit _ h16, hmm, ih _ _ hmod]
    have hdm := Nat.div_add_mod n (16 ^ w)
    rw [pow_succ]
    nlinarith [hdm]

theorem hexChars_all_hex (w n : Nat) (hn : n < 16 ^ w) :
    (hexChars w n).takeWhile isHexDigitB = hexChars w n := by
  induction w generalizing n with
  | zero => rfl
  | succ w ih =>
    have hpos : 0 < 16 ^ w := Nat.pos_pow_of_pos w (by norm_num)
    have hmod : n % 16 ^ w < 16 ^ w := Nat.mod_lt _ hpos
    have h16 : n / 16 ^ w % 16 < 16 := Nat.mod_lt _ (by norm_num)
    simp [hexChars, List.takeWhile_cons,
      isHexDigitB_hexDigit _ h16, ih _ hmod]

/-- Round trip: parsing the key built from an id recovers the id, for
ids representable as u64. -/
theorem snapIdFromKey_keyFromSnapId (i : Nat) (hi : i < 2 ^ 64) :
    snapIdFromKey (keyFromSnapId i) = i := by
  have h16 : i < 16 ^ 16 := by norm_num at hi ⊢; omega
  have hdrop : (("snapshot_".data ++ hexChars 16 i).drop 9) = hexChars 16 i := by
    have : ("snapshot_".data).length = 9 := by decide
    rw [← this, List.drop_left]
  simp only [snapIdFromKey, keyFromSnapId, hdrop, hexChars_all_hex 16 i h16]
  have := hexChars_foldl 16 i 0 h16
  simpa using this

theorem hexChars_lt (w : Nat) :
    ∀ i j, i < 16 ^ w → j < 16 ^ w → i < j →
      charListLt (hexChars w i) (hexChars w j) = true := by
  induction w with
  | zero => intro i j hi _ _; interval_cases i; omega
  | succ w ih =>
    intro i j hi hj hij
    have hpos : 0 < 16 ^ w := Nat.pos_pow_of_pos w (by norm_num)
    have hdi : i / 16 ^ w < 16 := by
      rw [Nat.div_lt_iff_lt_mul hpos]
      rw [pow_succ] at hi
      omega
    have hdj : j / 16 ^ w < 16 := by
      rw [Nat.div_lt_iff_lt_mul hpos]
      rw [pow_succ] at hj
      omega
    have hmi : i / 16 ^ w % 16 = i / 16 ^ w := Nat.mod_eq_of_lt hdi
    have hmj : j / 16 ^ w % 16 = j / 16 ^ w := Nat.mod_eq_of_lt hdj
    simp only [hexChars, charListLt, hmi, hmj]
    rcases Nat.lt_trichotomy (i / 16 ^ w) (j / 16 ^ w) with hlt | heq | hgt
    · simp [hexDigit_toNat_lt _ _ hdi hdj hlt]
    · have hle : ¬ (hexDigit (i / 16 ^ w)).toNat < (hexDigit (j / 16 ^ w)).toNat := by
        rw [heq]; omega
      have hge : ¬ (hexDigit (j / 16 ^ w)).toNat < (hexDigit (i / 16 ^ w)).toNat := by
        rw [heq]; omega
      simp only [hle, hge, if_false]
      apply ih
      · exact Nat.mod_lt _ hpos
      · exact Nat.mod_lt _ hpos
      · have hi2 := Nat.div_add_mod i (16 ^ w)
        have hj2 := Nat.div_add_mod j (16 ^ w)
        rw [← heq] at hj2
        omega
    · have h1 : j / 16 ^ w ≤ i / 16 ^ w := Nat.le_of_lt hgt
      have h2 : i / 16 ^ w ≤ j / 16 ^ w := Nat.div_le_div_right (Nat.le_of_lt hij)
      omega

/-- Key order matches id order: the fixed-width hex encoding makes
lexicographic key order agree with numeric snapshot-id order. -/
theorem keyFromSnapId_lt (i j : Nat) (hi : i < 2 ^ 64) (hj : j < 2 ^ 64)
    (hij : i < j) : strLtB (keyFromSnapId i) (keyFromSnapId j) = true := by
  have h16i : i < 16 ^ 16 := by norm_num at hi ⊢; omega
  have h16j : j < 16 ^ 16 := by norm_num at hj ⊢; omega
  simp only [strLtB, keyFromSnapId, charListLt_append]
  exact hexChars_lt 16 i j h16i h16j hij

/-- Reflection: strict key order implies strict id order. -/
theorem keyFromSnapId_lt_rev (i j : Nat) (hi : i < 2 ^ 64) (hj : j < 2 ^ 64)
    (h : strLtB (keyFromSnapId i) (keyFromSnapId j) = true) : i < j := by
  rcases Nat.lt_trichotomy i j with hlt | heq | hgt
  · exact hlt
  · subst heq
    rw [strLtB, charListLt_irrefl] at h
    exact absurd h (by simp)
  · have := keyFromSnapId_lt j i hj hi hgt
    have := charListLt_asymm _ _ this
    rw [strLtB] at h
    rw [this] at h
    exact absurd h (by simp)

/-- Every snapshot key is strictly above the bare prefix in key order. -/
theorem strLtB_snapKey (i : Nat) :
    strLtB "snapshot_" (keyFromSnapId i) = true := by
  simp only [strLtB, keyFromSnapId]
  apply charListLt_self_append
  have : (hexChars 16 i).length = 16 := hexChars_length 16 i
  intro h
  rw [h] at this
  simp at this

theorem keyFromSnapId_length (i : Nat) :
    (keyFromSnapId i).data.length = 25 := by
  simp [keyFromSnapId, hexChars_length]

/-- Snapshot keys are distinct from every fixed metadata key (they have
length 25). -/
theorem keyFromSnapId_ne (i : Nat) (s : String) (hs : s.data.length ≠ 25) :
    keyFromSnapId i ≠ s := by
  intro h
  apply hs
  rw [← h]
  exact keyFromSnapId_length i

/-- Parent pointer record. Modelled from the spec: the type
`cls_rbd_parent` lives in librbd/cls_rbd.h which is not part of the
source tree; the spec gives its fields (`pool: i64`, `image_id: string`,
`snap_id: u64`, `overlap: u64`) and its existence discriminator. -/
structure ParentRec where
  pool : Int
  id : String
  snapid : Nat
  overlap : Nat
deriving DecidableEq, Repr

/-- Existence of a parent pointer: pool nonnegative and image id
non-empty (spec: "Existence is discriminated by pool ≥ 0 and non-empty
image_id"). -/
def parentExists (p : ParentRec) : Bool :=
  decide (0 ≤ p.pool) && !(p.id = "")

/-- The default-constructed (absent) parent pointer. -/
def noParent : ParentRec :=
  ⟨-1, "", 0, 0⟩

/-- Snapshot record. Modelled from the spec: the type `cls_rbd_snap`
lives in librbd/cls_rbd.h which is not part of the source tree; the spec
gives its fields (`id`, `name`, `image_size`, `features`, `parent`). -/
structure SnapRec where
  id : Nat
  name : String
  image_size : Nat
  features : Nat
  parent : ParentRec
deriving DecidableEq, Repr

/-- A value stored under one omap key: the decoded form of the encoded
bufferlist the C code stores.  Reading a key at a different type than it
was written models a buffer::error, which read_key maps to EIO. -/
inductive Val where
  | vU64 (n : Nat)
  | vU8 (n : Nat)
  | vStr (s : String)
  | vSnap (s : SnapRec)
  | vParent (p : ParentRec)
  | vLockers (l : List (String × String))
deriving DecidableEq, Repr

/-- The omap of one metadata object: association list in strictly
ascending key order (the enumeration order of the store adapter). -/
def Omap : Type := List (String × Val)

/-- Association lookup of one key (cls_cxx_map_get_val). -/
def lookupKey : List (String × Val) → String → Option Val
  | [], _ => none
  | (k2, v2) :: t, k => if k = k2 then some v2 else lookupKey t k

/-- Set one key to a value (cls_cxx_map_set_val), inserting at the
sorted position or replacing an existing binding. -/
def setVal : List (String × Val) → String → Val → List (String × Val)
  | [], k, v => [(k, v)]
  | (k2, v2) :: t, k, v =>
    if strLtB k k2 then (k, v) :: (k2, v2) :: t
    else if k = k2 then (k, v) :: t
    else (k2, v2) :: setVal t k v

/-- Remove one key (cls_cxx_map_remove_key). -/
def removeKeyL (m : List (String × Val)) (k : String) : List (String × Val) :=
  m.filter (fun kv => !(kv.1 = k))

theorem lookupKey_setVal_self (m : List (String × Val)) (k : String) (v : Val) :
    lookupKey (setVal m k v) k = some v := by
  induction m with
  | nil => simp [setVal, lookupKey]
  | cons kv t ih =>
    obtain ⟨k2, v2⟩ := kv
    by_cases h1 : strLtB k k2 = true
    · simp [setVal, h1, lookupKey]
    · by_cases h2 : k = k2
      · subst h2
        simp [setVal, h1, lookupKey]
      · simp [setVal, h1, h2, lookupKey, ih]

theorem lookupKey_setVal_ne (m : List (String × Val)) (k k2 : String) (v : Val)
    (h : k2 ≠ k) : lookupKey (setVal m k v) k2 = lookupKey m k2 := by
  induction m with
  | nil => simp [setVal, lookupKey, h]
  | cons kv t ih =>
    obtain ⟨k3, v3⟩ := kv
    simp only [setVal]
    by_cases h1 : strLtB k k3
    · simp [h1, lookupKey, h]
    · by_cases h2 : k = k3
      · subst h2
        simp [h1, lookupKey, h]
      · by_cases h3 : k2 = k3
        · simp [h1, h2, lookupKey, h3]
        · simp [h1, h2, lookupKey, h3, ih]

theorem lookupKey_removeKeyL_ne (m : List (String × Val)) (k k2 : String)
    (h : k2 ≠ k) : lookupKey (removeKeyL m k) k2 = lookupKey m k2 := by
  induction m with
  | nil => rfl
  | cons kv t ih =>
    obtain ⟨k3, v3⟩ := kv
    by_cases h3 : k3 = k
    · subst h3
      simp only [removeKeyL, List.filter_cons] at ih ⊢
      have h4 : k2 ≠ k3 := h
      simp [lookupKey, h4, ih]
    · simp only [removeKeyL, List.filter_cons] at ih ⊢
      by_cases h4 : k2 = k3
      · subst h4
        simp [lookupKey, h3]
      · simp [lookupKey, h3, h4, ih]

theorem mem_setVal (m : List (String × Val)) (k : String) (v : Val) :
    ∀ x : String × Val, x ∈ setVal m k v → x = (k, v) ∨ x ∈ m := by
  induction m with
  | nil =>
    intro x hx
    simp [setVal] at hx
    exact Or.inl (by simp [hx])
  | cons kv t ih =>
    intro x hx
    obtain ⟨k2, v2⟩ := kv
    by_cases h1 : strLtB k k2 = true
    · simp only [setVal, h1, if_true] at hx
      simp at hx
      rcases hx with h | h | h
      · left; simp [h]
      · right; simp [h]
      · right; simp [h]
    · by_cases h2 : k = k2
      · subst h2
        simp only [setVal, h1, if_false] at hx
        simp at hx
        rcases hx with h | h
        · left; simp [h]
        · right; simp [h]
      · simp only [setVal, h1, h2, if_false] at hx
        simp [h2] at hx
        rcases hx with h | h
        · right; simp [h]
        · rcases ih x h with h3 | h3
          · left; exact h3
          · right; simp [h3]

theorem mem_removeKeyL (m : List (String × Val)) (k : String)
    (x : String × Val) (hx : x ∈ removeKeyL m k) : x ∈ m := by
  exact List.mem_of_mem_filter hx

theorem lookupKey_mem (m : List (String × Val)) (k : String) (v : Val)
    (h : lookupKey m k = some v) : (k, v) ∈ m := by
  induction m with
  | nil => simp [lookupKey] at h
  | cons kv t ih =>
    obtain ⟨k2, v2⟩ := kv
    simp only [lookupKey] at h
    by_cases h2 : k = k2
    · simp [h2] at h
      subst h2
      simp [← h]
    · simp [h2] at h
      simp [ih h]

/-- Feature bit for layering.  Modelled from the spec: the numeric
feature constants live in include/rbd_types.h which is not part of the
source tree; the spec describes a supported set and an incompatible
subset, with layering the only feature of this version. -/
def RBD_FEATURE_LAYERING : Nat := 1

/-- All features this class understands. -/
def RBD_FEATURES_ALL : Nat := RBD_FEATURE_LAYERING

/-- Features a client must understand to use the image. -/
def RBD_FEATURES_INCOMPATIBLE : Nat := RBD_FEATURE_LAYERING

/-- Sentinel snapshot id meaning "the live image, not a snapshot". -/
def CEPH_NOSNAP : Nat := 2 ^ 64 - 2

/-- Largest valid snapshot id. -/
def CEPH_MAXSNAP : Nat := 2 ^ 64 - 3

/-- Page size of the key-value enumeration loops (RBD_MAX_KEYS_READ). -/
def RBD_MAX_KEYS_READ : Nat := 64

/-- Bitwise complement within a u64, the C `~` on a uint64_t value. -/
def complement64 (a : Nat) : Nat := (2 ^ 64 - 1) ^^^ a

/-- State of one image metadata object: whether the object exists (for
cls_cxx_stat) and its key-value map.  Writing any key creates the
object. -/
structure Image where
  present : Bool
  omap : List (String × Val)
deriving DecidableEq, Repr

/-- Write one key (object becomes existent). -/
def imgSet (st : Image) (k : String) (v : Val) : Image :=
  ⟨true, setVal st.omap k v⟩

/-- Remove one key (object stays existent). -/
def imgRemove (st : Image) (k : String) : Image :=
  ⟨st.present, removeKeyL st.omap k⟩

def sizeKey : String := "size"

def orderKey : String := "order"

def featuresKey : String := "features"

def objectPfxKey : String := "object_prefix"

def snapSeqKey : String := "snap_seq"

def parentKey : String := "parent"

def locksKey : String := "lock_lockers"

def lockTypeKey : String := "lock_type"

def lockExclStr : String := "exclusive"

def lockSharedStr : String := "shared"

/-- read_key at type u64: ENOENT if the key is absent, EIO if the stored
bytes do not decode at this type. -/
def readU64 (m : List (String × Val)) (k : String) : Except Err Nat :=
  match lookupKey m k with
  | none => .error .ENOENT
  | some (.vU64 n) => .ok n
  | some _ => .error .Eio

/-- read_key at type u8. -/
def readU8 (m : List (String × Val)) (k : String) : Except Err Nat :=
  match lookupKey m k with
  | none => .error .ENOENT
  | some (.vU8 n) => .ok n
  | some _ => .error .Eio

/-- read_key at type string. -/
def readStr (m : List (String × Val)) (k : String) : Except Err String :=
  match lookupKey m k with
  | none => .error .ENOENT
  | some (.vStr s) => .ok s
  | some _ => .error .Eio

/-- read_key at type cls_rbd_snap. -/
def readSnap (m : List (String × Val)) (k : String) : Except Err SnapRec :=
  match lookupKey m k with
  | none => .error .ENOENT
  | some (.vSnap s) => .ok s
  | some _ => .error .Eio

/-- read_key at type cls_rbd_parent. -/
def readParent (m : List (String × Val)) (k : String) : Except Err ParentRec :=
  match lookupKey m k with
  | none => .error .ENOENT
  | some (.vParent p) => .ok p
  | some _ => .error .Eio

/-- check_exists: cls_cxx_stat on the header object. -/
def checkExists (st : Image) : Except Err Unit :=
  if st.present then .ok () else .error .ENOENT

/-- require_feature: reads the features key; on ENOENT distinguishes a
missing object (ENOENT) from an old-style image with no feature bitmask
(ENOEXEC); otherwise demands all needed bits. -/
def requireFeature (st : Image) (need : Nat) : Except Err Unit :=
  match readU64 st.omap featuresKey with
  | .error .ENOENT =>
    (match checkExists st with
     | .error e => .error e
     | .ok _ => .error .ENOEXEC)
  | .error e => .error e
  | .ok f => if (f &&& need) ≠ need then .error .ENOEXEC else .ok ()

/-- create: refuse unknown feature bits (ENOSYS), an empty object name
prefix (EINVAL), or an existing image (EEXIST, keyed on the prefix key
being present); otherwise write size, order, features, the prefix and
snap_seq = 0 in the one transaction. -/
def create (st : Image) (size order features : Nat) (objpfx : String) :
    Except Err Image :=
  if features &&& complement64 RBD_FEATURES_ALL ≠ 0 then .error .ENOSYS
  else if objpfx = "" then .error .EINVAL
  else match lookupKey st.omap objectPfxKey with
    | some _ => .error .EEXIST
    | none =>
      .ok (imgSet (imgSet (imgSet (imgSet (imgSet st sizeKey (.vU64 size))
        orderKey (.vU8 order)) featuresKey (.vU64 features))
        objectPfxKey (.vStr objpfx)) snapSeqKey (.vU64 0))

/-- get_features: live features for CEPH_NOSNAP, else the snapshot's
frozen copy; also returns the incompatible subset. -/
def getFeatures (st : Image) (snap_id : Nat) : Except Err (Nat × Nat) :=
  match (if snap_id = CEPH_NOSNAP then readU64 st.omap featuresKey
         else Except.map (fun s => s.features) (readSnap st.omap (keyFromSnapId snap_id))) with
  | .error e => .error e
  | .ok f => .ok (f, f &&& RBD_FEATURES_INCOMPATIBLE)

/-- get_size: live order plus the live or snapshot-frozen size. -/
def getSize (st : Image) (snap_id : Nat) : Except Err (Nat × Nat) :=
  match requireFeature st 0 with
  | .error e => .error e
  | .ok _ =>
  match readU8 st.omap orderKey with
  | .error e => .error e
  | .ok order =>
  match (if snap_id = CEPH_NOSNAP then readU64 st.omap sizeKey
         else Except.map (fun s => s.image_size) (readSnap st.omap (keyFromSnapId snap_id))) with
  | .error e => .error e
  | .ok size => .ok (order, size)

/-- set_size: write the new size; when shrinking, clamp an existing
parent's overlap down to the new size if it exceeded it, in the same
transaction. -/
def setSize (st : Image) (size : Nat) : Except Err Image :=
  match requireFeature st 0 with
  | .error e => .error e
  | .ok _ =>
  match readU64 st.omap sizeKey with
  | .error e => .error e
  | .ok orig =>
  let st1 := imgSet st sizeKey (.vU64 size)
  if size < orig then
    match lookupKey st1.omap parentKey with
    | none => .ok st1
    | some (.vParent p) =>
      if parentExists p && decide (size < p.overlap) then
        .ok (imgSet st1 parentKey (.vParent {p with overlap := size}))
      else .ok st1
    | some _ => .error .Eio
  else .ok st1

/-- Pair order of the locker set, the std::set order on
pair<string,string>. -/
def pairLtB (a b : String × String) : Bool :=
  strLtB a.1 b.1 || (a.1 = b.1 && strLtB a.2 b.2)

/-- Ordered insertion position for the locker set. -/
def sortedInsertPair : List (String × String) → (String × String) →
    List (String × String)
  | [], p => [p]
  | q :: t, p => if pairLtB p q then p :: q :: t else q :: sortedInsertPair t p

/-- std::set::insert: returns the set and whether a new element was
inserted (false when the pair was already present). -/
def insertPair (l : List (String × String)) (p : String × String) :
    List (String × String) × Bool :=
  if l.contains p then (l, false) else (sortedInsertPair l p, true)

/-- Insertion step of lock_image: duplicate (requester, cookie) fails
EEXIST; otherwise both the locker set and the type flag are written in
one batched write (cls_cxx_map_set_vals). -/
def lockImageIns (st : Image) (requester lock_type cookie : String)
    (lockers : List (String × String)) : Except Err Image :=
  let r := insertPair lockers (requester, cookie)
  if r.2 = false then .error .EEXIST
  else .ok ⟨true, setVal (setVal st.omap locksKey (.vLockers r.1))
    lockTypeKey (.vStr lock_type)⟩

/-- Core of lock_image after the locker set has been read (hadKey says
whether the lockers key was present). -/
def lockImageGo (st : Image) (requester lock_type cookie : String)
    (exclusive hadKey : Bool) (lockers : List (String × String)) :
    Except Err Image :=
  if exclusive && hadKey && !lockers.isEmpty then .error .EBUSY
  else if !lockers.isEmpty && !exclusive then
    match readStr st.omap lockTypeKey with
    | .error e => .error e
    | .ok t =>
      if t ≠ lock_type then .error .EBUSY
      else lockImageIns st requester lock_type cookie lockers
  else lockImageIns st requester lock_type cookie lockers

/-- lock_image: read the existing locker set and apply the acquisition
protocol.  The requester identity is supplied by the calling context
(cls_get_request_origin). -/
def lockImage (st : Image) (requester lock_type cookie : String) :
    Except Err Image :=
  match lookupKey st.omap locksKey with
  | some (.vLockers lockers) =>
    lockImageGo st requester lock_type cookie (lock_type = lockExclStr) true lockers
  | some _ => .error .Eio
  | none =>
    lockImageGo st requester lock_type cookie (lock_type = lockExclStr) false []

/-- lock_exclusive entry point. -/
def lockImageExclusive (st : Image) (requester cookie : String) :
    Except Err Image :=
  match requireFeature st 0 with
  | .error e => .error e
  | .ok _ => lockImage st requester lockExclStr cookie

/-- lock_shared entry point. -/
def lockImageShared (st : Image) (requester cookie : String) :
    Except Err Image :=
  match requireFeature st 0 with
  | .error e => .error e
  | .ok _ => lockImage st requester lockSharedStr cookie

/-- remove_lock helper: remove one (locker, cookie) pair; ENOENT when it
is not held.  Only the locker set is rewritten: the type flag is left in
place even when the set becomes empty. -/
def removeLock (st : Image) (inst cookie : String) : Except Err Image :=
  match lookupKey st.omap locksKey with
  | none => .error .ENOENT
  | some (.vLockers lockers) =>
    if lockers.contains (inst, cookie) then
      .ok ⟨true, setVal st.omap locksKey (.vLockers (lockers.erase (inst, cookie)))⟩
    else .error .ENOENT
  | some _ => .error .Eio

/-- unlock_image: remove the calling identity's own lock. -/
def unlockImage (st : Image) (requester cookie : String) : Except Err Image :=
  match requireFeature st 0 with
  | .error e => .error e
  | .ok _ => removeLock st requester cookie

/-- break_lock: remove a named locker's lock. -/
def breakLock (st : Image) (locker cookie : String) : Except Err Image :=
  match requireFeature st 0 with
  | .error e => .error e
  | .ok _ => removeLock st locker cookie

/-- list_locks: the locker set (empty when the key is absent), plus
whether the stored type flag equals "exclusive".  Note the C code keeps
the return value of the type-flag read: when the lockers key is present
but the type key is absent, that read fails ENOENT and the method
returns it. -/
def listLocks (st : Image) : Except Err (List (String × String) × Bool) :=
  match requireFeature st 0 with
  | .error e => .error e
  | .ok _ =>
  match lookupKey st.omap locksKey with
  | none => .ok ([], ("" = lockExclStr : Bool))
  | some (.vLockers lockers) =>
    (match readStr st.omap lockTypeKey with
     | .error e => .error e
     | .ok t => .ok (lockers, (t = lockExclStr : Bool)))
  | some _ => .error .Eio

/-- set_parent: validate the arguments, refuse an existing parent, and
record the pointer with overlap = min(live size, parent size). -/
def setParent (st : Image) (pool : Int) (pimage : String)
    (snapid psize : Nat) : Except Err Image :=
  match checkExists st with
  | .error e => .error e
  | .ok _ =>
  match requireFeature st RBD_FEATURE_LAYERING with
  | .error e => .error e
  | .ok _ =>
  if pool < 0 ∨ pimage = "" ∨ snapid = CEPH_NOSNAP ∨ psize = 0 then .error .EINVAL
  else match lookupKey st.omap parentKey with
    | some (.vParent _) => .error .EEXIST
    | _ =>
      match readU64 st.omap sizeKey with
      | .error e => .error e
      | .ok oursize =>
        .ok (imgSet st parentKey (.vParent ⟨pool, pimage, snapid, min oursize psize⟩))

/-- remove_parent: delete the parent key (ENOENT when there is none). -/
def removeParent (st : Image) : Except Err Image :=
  match checkExists st with
  | .error e => .error e
  | .ok _ =>
  match requireFeature st RBD_FEATURE_LAYERING with
  | .error e => .error e
  | .ok _ =>
  match readParent st.omap parentKey with
  | .error e => .error e
  | .ok _ => .ok (imgRemove st parentKey)

/-
  Pagination model.  The store adapter enumerates keys in ascending
  order: a query for up to RBD_MAX_KEYS_READ keys strictly greater than
  `last_read` (optionally restricted to the snapshot key namespace)
  returns, on the frozen sorted map of the one atomic call, exactly the
  first page of the still-unvisited suffix.  The do/while loops of
  snapshot_add and get_snapcontext, which re-query from the greatest key
  of the previous page while pages come back full, therefore traverse
  that suffix page by page; they are embedded as chunked recursion over
  the pending suffix.
-/

/-- Whether a key lies in the snapshot key namespace (has the common
prefix), the filter_prefix argument of cls_cxx_map_get_vals. -/
def hasSnapPfx (k : String) : Bool :=
  "snapshot_".data.isPrefixOf k.data

/-- The snapshot-record entries of the map, in store order: keys
strictly above the starting key "snapshot_" and matching the prefix
filter. -/
def snapEntries (m : List (String × Val)) : List (String × Val) :=
  m.filter (fun kv => strLtB "snapshot_" kv.1 && hasSnapPfx kv.1)

/-- One page's worth of duplicate checking, the inner for loop of
snapshot_add: decode each record (EIO on failure) and fail EEXIST on a
name or id collision. -/
def linScan (name : String) (id : Nat) : List (String × Val) → Except Err Unit
  | [] => .ok ()
  | kv :: t =>
    match kv.2 with
    | .vSnap s =>
      if s.name = name ∨ s.id = id then .error .EEXIST else linScan name id t
    | _ => .error .Eio

/-- The paginated duplicate scan of snapshot_add: check a page, and
continue from the last key seen while pages come back full. -/
def dupScan (name : String) (id : Nat) (pending : List (String × Val)) :
    Except Err Unit :=
  match linScan name id (pending.take RBD_MAX_KEYS_READ) with
  | .error e => .error e
  | .ok _ =>
    if h : (pending.take RBD_MAX_KEYS_READ).length = RBD_MAX_KEYS_READ then
      dupScan name id (pending.drop RBD_MAX_KEYS_READ)
    else .ok ()
termination_by pending.length
decreasing_by
  simp only [List.length_take, List.length_drop, RBD_MAX_KEYS_READ] at h ⊢
  omega

/-- snapshot_add: gate on the base feature, refuse ids above the
maximum, refuse ids below the monotonic floor as ESTALE, copy live size
and features, scan all records for duplicates, inherit the live parent,
and write the record plus the bumped snap_seq as one batched write. -/
def snapshotAdd (st : Image) (name : String) (id : Nat) : Except Err Image :=
  match requireFeature st 0 with
  | .error e => .error e
  | .ok _ =>
  if id > CEPH_MAXSNAP then .error .EINVAL
  else match readU64 st.omap snapSeqKey with
  | .error e => .error e
  | .ok cur =>
  if id < cur then .error .ESTALE
  else match readU64 st.omap sizeKey with
  | .error e => .error e
  | .ok sz =>
  match readU64 st.omap featuresKey with
  | .error e => .error e
  | .ok ft =>
  match dupScan name id (snapEntries st.omap) with
  | .error e => .error e
  | .ok _ =>
  match lookupKey st.omap parentKey with
  | some (.vParent p) =>
    .ok ⟨true, setVal (setVal st.omap snapSeqKey (.vU64 id)) (keyFromSnapId id)
      (.vSnap ⟨id, name, sz, ft, p⟩)⟩
  | none =>
    .ok ⟨true, setVal (setVal st.omap snapSeqKey (.vU64 id)) (keyFromSnapId id)
      (.vSnap ⟨id, name, sz, ft, noParent⟩)⟩
  | some _ => .error .Eio

/-- snapshot_remove: ENOENT when the record is absent (checked with a
plain read, since removing a missing key would succeed), else delete the
one key.  snap_seq is not touched. -/
def snapshotRemove (st : Image) (id : Nat) : Except Err Image :=
  match requireFeature st 0 with
  | .error e => .error e
  | .ok _ =>
  match lookupKey st.omap (keyFromSnapId id) with
  | none => .error .ENOENT
  | some _ => .ok (imgRemove st (keyFromSnapId id))

/-- The id-collection loop of get_snapcontext: parse each key of a page,
and continue while pages come back full. -/
def collectIds (pending : List String) : List Nat :=
  (pending.take RBD_MAX_KEYS_READ).map snapIdFromKey ++
    (if h : (pending.take RBD_MAX_KEYS_READ).length = RBD_MAX_KEYS_READ then
       collectIds (pending.drop RBD_MAX_KEYS_READ)
     else [])
termination_by pending.length
decreasing_by
  simp only [List.length_take, List.length_drop, RBD_MAX_KEYS_READ] at h ⊢
  omega

/-- The keys the pagination of get_snapcontext visits: all keys strictly
above "snapshot_" (cls_cxx_map_get_keys has no prefix filter; every
fixed metadata key sorts below "snapshot_"). -/
def snapKeysAfter (m : List (String × Val)) : List String :=
  (m.filter (fun kv => strLtB "snapshot_" kv.1)).map Prod.fst

/-- get_snapcontext: collect all snapshot ids by the paginated key scan,
read snap_seq, and return the ids reversed into descending order. -/
def getSnapcontext (st : Image) : Except Err (Nat × List Nat) :=
  match requireFeature st 0 with
  | .error e => .error e
  | .ok _ =>
  let ids := collectIds (snapKeysAfter st.omap)
  match readU64 st.omap snapSeqKey with
  | .error e => .error e
  | .ok seq => .ok (seq, ids.reverse)

/-
  Legacy (old format) header.  The on-disk layout lives in
  include/rbd_types.h, which is not part of the source tree; modelled
  from the spec: a fixed header embedding snap_count (u32),
  snap_names_len (u64), snap_seq (u64) and image_size (u64), followed by
  snap_count fixed-size descriptors (id, image_size) and snap_names_len
  bytes of null-terminated names.  snap_read_header re-reads until the
  declared lengths match the object, so an operation always starts from
  a consistently read buffer; the descriptor array and the name table
  are modelled as the decoded list and the raw byte list.  Reads beyond
  a buffer's end (C pointer arithmetic on the one heap buffer) are
  modelled as zero bytes.
-/

/-- One legacy snapshot descriptor (rbd_obj_snap_ondisk). -/
structure OldSnap where
  id : Nat
  image_size : Nat
deriving DecidableEq, Repr

/-- The legacy header object (rbd_obj_header_ondisk plus the trailing
descriptor array and name table). -/
structure OldHeader where
  image_size : Nat
  snap_seq : Nat
  snap_count : Nat
  snap_names_len : Nat
  snaps : List OldSnap
  names : List Nat
deriving DecidableEq, Repr

/-- Read `n` bytes from a buffer starting at its head; bytes past the
end read as zero. -/
def padTake (l : List Nat) (n : Nat) : List Nat :=
  l.take n ++ List.replicate (n - l.length) 0

/-- Read `n` bytes at offset `off`. -/
def listRead (l : List Nat) (off n : Nat) : List Nat :=
  padTake (l.drop off) n

/-- Read `n` descriptors from the descriptor array; entries past the
end read as zeroed descriptors. -/
def padTakeS (l : List OldSnap) (n : Nat) : List OldSnap :=
  l.take n ++ List.replicate (n - l.length) ⟨0, 0⟩

/-- Read `n` descriptors at index `off`. -/
def listReadS (l : List OldSnap) (off n : Nat) : List OldSnap :=
  padTakeS (l.drop off) n

/-- C strlen on a byte buffer: distance to the first zero byte (the
buffer end acts as a terminator). -/
def strlenB (l : List Nat) : Nat :=
  (l.takeWhile (fun b => b ≠ 0)).length

/-- The C-string at the head of a byte buffer. -/
def cstrOf (l : List Nat) : List Nat :=
  l.takeWhile (fun b => b ≠ 0)

/-- C strncmp(a, b, n) == 0: equal up to a common terminator or the
length limit. -/
def strncmpEq : List Nat → List Nat → Nat → Bool
  | _, _, 0 => true
  | a, b, n + 1 =>
    if a.headD 0 ≠ b.headD 0 then false
    else if a.headD 0 = 0 then true
    else strncmpEq a.tail b.tail n

/-- Result of the duplicate-name walk of old_snapshot_add. -/
inductive ScanRes where
  | found
  | notFound
  | overrun
deriving DecidableEq, Repr

/-- The duplicate-name walk of old_snapshot_add: at each name, compare
with strncmp limited to the bytes left before the table end; advance by
strlen+1; report an overrun when the last name is not terminated inside
the table. -/
def scanNames (tbl nm : List Nat) : ScanRes :=
  if htbl : tbl = [] then .notFound
  else if strncmpEq tbl nm tbl.length then .found
  else if hlen : strlenB tbl = tbl.length then .overrun
  else scanNames (tbl.drop (strlenB tbl + 1)) nm
termination_by tbl.length
decreasing_by
  have hpos : 0 < tbl.length := List.length_pos.mpr htbl
  simp only [List.length_drop]
  omega

/-- The lookup walk of old_snapshot_remove: find the first name equal to
the argument (strcmp), returning its index and byte offset. -/
def findName (tbl nm : List Nat) : Option (Nat × Nat) :=
  if htbl : tbl = [] then none
  else if cstrOf tbl = nm then some (0, 0)
  else
    match findName (tbl.drop (strlenB tbl + 1)) nm with
    | none => none
    | some (i, off) => some (i + 1, off + (strlenB tbl + 1))
termination_by tbl.length
decreasing_by
  have hpos : 0 < tbl.length := List.length_pos.mpr htbl
  simp only [List.length_drop]
  omega

/-- u32 wrap-around addition. -/
def add32 (a b : Nat) : Nat := (a + b) % 2 ^ 32

/-- u64 wrap-around addition. -/
def add64 (a b : Nat) : Nat := (a + b) % 2 ^ 64

/-- u32 wrap-around subtraction. -/
def sub32 (a b : Nat) : Nat := (a + (2 ^ 32 - b % 2 ^ 32)) % 2 ^ 32

/-- u64 wrap-around subtraction. -/
def sub64 (a b : Nat) : Nat := (a + (2 ^ 64 - b % 2 ^ 64)) % 2 ^ 64

/-- old_snapshot_add: reject a duplicate name (EEXIST); otherwise build
the brand-new buffer: header with snap_count+1, snap_names_len grown by
strlen(name)+1 and snap_seq = id; the new (id, current image_size)
descriptor prepended to the old array; the new name prepended to the old
table. -/
def oldSnapshotAdd (h : OldHeader) (name : List Nat) (snap_id : Nat) :
    Except Err OldHeader :=
  let tbl := padTake h.names h.snap_names_len
  let nmc := cstrOf name
  match scanNames tbl nmc with
  | .found => .error .EEXIST
  | .overrun => .error .Eio
  | .notFound =>
    .ok { image_size := h.image_size
          snap_seq := snap_id
          snap_count := add32 h.snap_count 1
          snap_names_len := add64 h.snap_names_len (nmc.length + 1)
          snaps := ⟨snap_id, h.image_size⟩ :: padTakeS h.snaps h.snap_count
          names := nmc ++ 0 :: tbl }

/-- old_snapshot_remove: find the name (ENOENT when absent); rebuild the
buffer with the descriptor and name at that index spliced out and the
counts decremented; uninitialized remainder bytes of the freshly
allocated parts read as zero. -/
def oldSnapshotRemove (h : OldHeader) (name : List Nat) :
    Except Err OldHeader :=
  let tbl := padTake h.names h.snap_names_len
  match findName tbl (cstrOf name) with
  | none => .error .ENOENT
  | some (i, off) =>
    let slen := name.length
    let count2 := sub32 h.snap_count 1
    let len2 := sub64 h.snap_names_len (slen + 1)
    if count2 = 0 then
      .ok { image_size := h.image_size, snap_seq := h.snap_seq,
            snap_count := count2, snap_names_len := len2,
            snaps := [], names := [] }
    else
      let snaps1 := if 0 < i then padTakeS h.snaps i else []
      let bytes1 := if 0 < i then listRead tbl 0 off else []
      let snaps2 := if i < count2 then listReadS h.snaps (i + 1) (count2 - i) else []
      let bytes2 := if i < count2 then
        listRead tbl (off + slen + 1) (h.snap_names_len - (off + (slen + 1))) else []
      .ok { image_size := h.image_size, snap_seq := h.snap_seq,
            snap_count := count2, snap_names_len := len2,
            snaps := padTakeS (snaps1 ++ snaps2) count2,
            names := padTake (bytes1 ++ bytes2) len2 }

/-- The walk of old_snapshots_list: emit (id, image_size, name) per
descriptor, advancing through the name table; EIO when the walk passes
the declared table end. -/
def listWalk : List OldSnap → List Nat → Nat → Except Err (List (Nat × Nat × List Nat))
  | _, _, 0 => .ok []
  | snaps, tbl, c + 1 =>
    let d := snaps.headD ⟨0, 0⟩
    let nm := cstrOf tbl
    let adv := strlenB tbl + 1
    if adv > tbl.length then .error .Eio
    else
      match listWalk snaps.tail (tbl.drop adv) c with
      | .error e => .error e
      | .ok rest => .ok ((d.id, d.image_size, nm) :: rest)

/-- old_snapshots_list: snap_seq, snap_count, and the descriptor/name
triples in on-disk order. -/
def oldSnapshotsList (h : OldHeader) :
    Except Err (Nat × Nat × List (Nat × Nat × List Nat)) :=
  let tbl := padTake h.names h.snap_names_len
  match listWalk (padTakeS h.snaps h.snap_count) tbl h.snap_count with
  | .error e => .error e
  | .ok entries => .ok (h.snap_seq, h.snap_count, entries)

/-
  Block-id allocator (rbd_assign_bid).  The counter record rbd_info
  lives in include/rbd_types.h, which is not part of the source tree;
  modelled from the spec: a fixed-size record holding max_id as a u64,
  here 8 bytes little-endian.  cls_cxx_read of an absent or empty
  counter object reads 0 bytes (spec: "if absent/empty, treats max_id as
  0").
-/

/-- Size of the rbd_info record. -/
def RBD_INFO_SIZE : Nat := 8

/-- Little-endian u64 encoding, the in-memory bytes of rbd_info. -/
def leBytes8 (n : Nat) : List Nat :=
  [n % 256, n / 256 % 256, n / 256 ^ 2 % 256, n / 256 ^ 3 % 256,
   n / 256 ^ 4 % 256, n / 256 ^ 5 % 256, n / 256 ^ 6 % 256, n / 256 ^ 7 % 256]

/-- Little-endian u64 decoding of the first 8 bytes. -/
def leDecode8 (l : List Nat) : Nat :=
  l.getD 0 0 + 256 * l.getD 1 0 + 256 ^ 2 * l.getD 2 0 + 256 ^ 3 * l.getD 3 0 +
    256 ^ 4 * l.getD 4 0 + 256 ^ 5 * l.getD 5 0 + 256 ^ 6 * l.getD 6 0 +
    256 ^ 7 * l.getD 7 0

/-- rbd_assign_bid: read the counter record; 0 bytes read means no prior
allocation (max_id 0); a short record fails EIO without writing;
otherwise increment, write the full record back as a whole-object
replacement, and return the new value. -/
def assignBid (counter : List Nat) : Except Err (List Nat × Nat) :=
  let rc := min RBD_INFO_SIZE counter.length
  if rc ≠ 0 ∧ rc < RBD_INFO_SIZE then .error .Eio
  else if rc ≠ 0 then
    let mx := (leDecode8 (counter.take RBD_INFO_SIZE) + 1) % 2 ^ 64
    .ok (leBytes8 mx, mx)
  else .ok (leBytes8 0, 0)

/-- N successive calls of assign_bid: final counter object and the list
of returned ids (stopping early if a call fails). -/
def assignBidSeq : Nat → List Nat → List Nat × List Nat
  | 0, c => (c, [])
  | n + 1, c =>
    match assignBid c with
    | .error _ => (c, [])
    | .ok (c2, out) =>
      let r := assignBidSeq n c2
      (r.1, out :: r.2)

@[simp] theorem imgSet_omap (st : Image) (k : String) (v : Val) :
    (imgSet st k v).omap = setVal st.omap k v := rfl

@[simp] theorem imgRemove_omap (st : Image) (k : String) :
    (imgRemove st k).omap = removeKeyL st.omap k := rfl

theorem linScan_append (name : String) (id : Nat) (a b : List (String × Val)) :
    linScan name id (a ++ b) =
      match linScan name id a with
      | .error e => .error e
      | .ok _ => linScan name id b := by
  induction a with
  | nil => simp [linScan]
  | cons kv t ih =>
    simp only [List.cons_append, linScan]
    cases kv.2 with
    | vSnap s =>
      by_cases hm : s.name = name ∨ s.id = id
      · simp [hm]
      · simp [hm, ih]
    | vU64 n => simp
    | vU8 n => simp
    | vStr s => simp
    | vParent p => simp
    | vLockers l => simp

/-- The paginated duplicate scan visits exactly the whole pending list:
chunking by full pages refines the straight left-to-right check. -/
theorem dupScan_eq_aux (name : String) (id : Nat) :
    ∀ n p, List.length p ≤ n → dupScan name id p = linScan name id p := by
  intro n
  induction n with
  | zero =>
    intro p hp
    have hnil : p = [] := List.eq_nil_of_length_eq_zero (Nat.le_zero.mp hp)
    subst hnil
    rw [dupScan]
    simp [linScan, RBD_MAX_KEYS_READ]
  | succ n ih =>
    intro p hp
    rw [dupScan]
    have hsplit := linScan_append name id (p.take RBD_MAX_KEYS_READ)
      (p.drop RBD_MAX_KEYS_READ)
    rw [List.take_append_drop] at hsplit
    cases hlin : linScan name id (p.take RBD_MAX_KEYS_READ) with
    | error e =>
      rw [hlin] at hsplit
      simp only at hsplit
      rw [hsplit]
    | ok u =>
      rw [hlin] at hsplit
      simp only at hsplit
      by_cases hfull : (p.take RBD_MAX_KEYS_READ).length = RBD_MAX_KEYS_READ
      · rw [dif_pos hfull]
        rw [hsplit]
        apply ih
        simp only [List.length_take, RBD_MAX_KEYS_READ] at hfull
        simp only [List.length_drop, RBD_MAX_KEYS_READ]
        omega
      · rw [dif_neg hfull]
        have hlt : p.length < RBD_MAX_KEYS_READ := by
          simp only [List.length_take, RBD_MAX_KEYS_READ] at hfull ⊢
          omega
        rw [List.take_of_length_le (Nat.le_of_lt hlt)] at hlin
        cases u
        rw [hlin]

theorem dupScan_eq_linScan (name : String) (id : Nat) (p : List (String × Val)) :
    dupScan name id p = linScan name id p :=
  dupScan_eq_aux name id p.length p (Nat.le_refl _)

theorem linScan_ok (name : String) (id : Nat) (p : List (String × Val))
    (h : ∀ kv ∈ p, ∃ s, kv.2 = Val.vSnap s ∧ s.name ≠ name ∧ s.id ≠ id) :
    linScan name id p = .ok () := by
  induction p with
  | nil => rfl
  | cons kv t ih =>
    obtain ⟨s, hs, hn, hi⟩ := h kv (by simp)
    simp only [linScan, hs]
    have : ¬ (s.name = name ∨ s.id = id) := by
      intro hc
      rcases hc with hc | hc
      · exact hn hc
      · exact hi hc
    rw [if_neg this]
    exact ih (fun kv2 hkv2 => h kv2 (by simp [hkv2]))

theorem linScan_eexist (name : String) (id : Nat) (p : List (String × Val))
    (hdec : ∀ kv ∈ p, ∃ s, kv.2 = Val.vSnap s)
    (hdup : ∃ kv ∈ p, ∃ s, kv.2 = Val.vSnap s ∧ (s.name = name ∨ s.id = id)) :
    linScan name id p = .error .EEXIST := by
  induction p with
  | nil => simp at hdup
  | cons kv t ih =>
    obtain ⟨s, hs⟩ := hdec kv (by simp)
    simp only [linScan, hs]
    by_cases hm : s.name = name ∨ s.id = id
    · rw [if_pos hm]
    · rw [if_neg hm]
      apply ih
      · exact fun kv2 hkv2 => hdec kv2 (by simp [hkv2])
      · obtain ⟨kv2, hkv2, s2, hs2, hm2⟩ := hdup
        rcases List.mem_cons.mp hkv2 with heq | hmem
        · subst heq
          rw [hs] at hs2
          cases hs2
          exact absurd hm2 hm
        · exact ⟨kv2, hmem, s2, hs2, hm2⟩

/-- The paginated id collection visits exactly the whole key list. -/
theorem collectIds_eq_aux :
    ∀ n p, List.length p ≤ n → collectIds p = p.map snapIdFromKey := by
  intro n
  induction n with
  | zero =>
    intro p hp
    have hnil : p = [] := List.eq_nil_of_length_eq_zero (Nat.le_zero.mp hp)
    subst hnil
    rw [collectIds]
    simp [RBD_MAX_KEYS_READ]
  | succ n ih =>
    intro p hp
    rw [collectIds]
    by_cases hfull : (p.take RBD_MAX_KEYS_READ).length = RBD_MAX_KEYS_READ
    · rw [dif_pos hfull]
      rw [ih (p.drop RBD_MAX_KEYS_READ) ?hlen]
      · rw [← List.map_append, List.take_append_drop]
      · simp only [List.length_take, RBD_MAX_KEYS_READ] at hfull
        simp only [List.length_drop, RBD_MAX_KEYS_READ]
        omega
    · rw [dif_neg hfull]
      have hlt : p.length < RBD_MAX_KEYS_READ := by
        simp only [List.length_take, RBD_MAX_KEYS_READ] at hfull ⊢
        omega
      rw [List.take_of_length_le (Nat.le_of_lt hlt)]
      simp

theorem collectIds_eq (p : List String) : collectIds p = p.map snapIdFromKey :=
  collectIds_eq_aux p.length p (Nat.le_refl _)

/-- C4: for every image with a parent pointer set, set_size(new_size)
clamps the stored parent overlap down to new_size exactly when new_size
is below both the current size and the stored overlap; a shrink that
stays at or above the overlap leaves the overlap unchanged, and a size
that does not shrink never changes the overlap; the clamped pointer is
persisted by the same call. -/
theorem c4_setSize_clamps_overlap (st : Image) (f orig ns : Nat) (p : ParentRec)
    (hf : lookupKey st.omap featuresKey = some (.vU64 f))
    (hs : lookupKey st.omap sizeKey = some (.vU64 orig))
    (hp : lookupKey st.omap parentKey = some (.vParent p))
    (hpe : parentExists p = true) :
    ∃ st2, setSize st ns = .ok st2 ∧
      lookupKey st2.omap sizeKey = some (.vU64 ns) ∧
      lookupKey st2.omap parentKey =
        some (.vParent (if ns < orig ∧ ns < p.overlap
          then {p with overlap := ns} else p)) := by
  have hreq : requireFeature st 0 = .ok () := by
    simp [requireFeature, readU64, hf]
  have hrs : readU64 st.omap sizeKey = .ok orig := by simp [readU64, hs]
  have hp1 : lookupKey (setVal st.omap sizeKey (.vU64 ns)) parentKey =
      some (.vParent p) := by
    rw [lookupKey_setVal_ne _ _ _ _ (by decide)]
    exact hp
  by_cases hlt : ns < orig
  · by_cases hov : ns < p.overlap
    · refine ⟨imgSet (imgSet st sizeKey (.vU64 ns)) parentKey
        (.vParent {p with overlap := ns}), ?_, ?_, ?_⟩
      · simp only [setSize, hreq, hrs, imgSet_omap]
        rw [if_pos hlt]
        simp only [hp1, hpe, hov, decide_True, Bool.true_and, if_true]
      · simp only [imgSet_omap]
        rw [lookupKey_setVal_ne _ _ _ _ (by decide)]
        exact lookupKey_setVal_self _ _ _
      · simp only [imgSet_omap]
        rw [lookupKey_setVal_self, if_pos ⟨hlt, hov⟩]
    · refine ⟨imgSet st sizeKey (.vU64 ns), ?_, ?_, ?_⟩
      · simp only [setSize, hreq, hrs, imgSet_omap]
        rw [if_pos hlt]
        simp [hp1, hpe, hov]
      · simp only [imgSet_omap]
        exact lookupKey_setVal_self _ _ _
      · simp only [imgSet_omap, hp1]
        rw [if_neg (by omega)]
  · refine ⟨imgSet st sizeKey (.vU64 ns), ?_, ?_, ?_⟩
    · simp only [setSize, hreq, hrs, imgSet_omap]
      rw [if_neg hlt]
    · simp only [imgSet_omap]
      exact lookupKey_setVal_self _ _ _
    · simp only [imgSet_omap, hp1]
      rw [if_neg (by omega)]

/-- Witness for C4 at a concrete image: size 200, parent overlap 100,
shrink to 50 clamps the stored overlap to 50. -/
theorem c4_setSize_clamps_overlap_witness :
    ∃ st2, setSize ⟨true, [("features", .vU64 1), ("parent", .vParent ⟨0, "p", 3, 100⟩),
        ("size", .vU64 200)]⟩ 50 = .ok st2 ∧
      lookupKey st2.omap sizeKey = some (.vU64 50) ∧
      lookupKey st2.omap parentKey = some (.vParent ⟨0, "p", 3, 50⟩) := by
  obtain ⟨st2, h1, h2, h3⟩ := c4_setSize_clamps_overlap
    ⟨true, [("features", .vU64 1), ("parent", .vParent ⟨0, "p", 3, 100⟩),
      ("size", .vU64 200)]⟩ 1 200 50 ⟨0, "p", 3, 100⟩
    (by decide) (by decide) (by decide) (by decide)
  rw [if_pos (by norm_num)] at h3
  exact ⟨st2, h1, h2, h3⟩

theorem complement64_testBit (a i : Nat) :
    (complement64 a).testBit i = ((decide (i < 64)).xor (a.testBit i)) := by
  rw [complement64, Nat.testBit_xor, Nat.testBit_two_pow_sub_one]

/-- The create guard `features & ~RBD_FEATURES_ALL` is zero exactly when
every set feature bit is a supported bit. -/
theorem land_complement64_zero_iff (f a : Nat) (hf : f < 2 ^ 64) (ha : a < 2 ^ 64) :
    (f &&& complement64 a = 0) ↔ (∀ i, f.testBit i = true → a.testBit i = true) := by
  constructor
  · intro h i hi
    have hz := congrArg (fun n => Nat.testBit n i) h
    simp only [Nat.testBit_land, Nat.zero_testBit] at hz
    rw [complement64_testBit, hi] at hz
    have hi64 : i < 64 := by
      by_contra hge
      have hfe : f.testBit i = false := Nat.testBit_lt_two_pow
        (lt_of_lt_of_le hf (Nat.pow_le_pow_right (by norm_num) (Nat.le_of_not_lt hge)))
      rw [hfe] at hi
      exact Bool.noConfusion hi
    simp only [hi64, decide_True, Bool.true_and] at hz
    cases hab : a.testBit i with
    | true => rfl
    | false => rw [hab] at hz; exact absurd hz (by simp)
  · intro h
    apply Nat.eq_of_testBit_eq
    intro i
    simp only [Nat.testBit_land, Nat.zero_testBit, complement64_testBit]
    cases hfi : f.testBit i with
    | false => simp
    | true =>
      have hai := h i hfi
      have hi64 : i < 64 := by
        by_contra hge
        have hfe : f.testBit i = false := Nat.testBit_lt_two_pow
          (lt_of_lt_of_le hf (Nat.pow_le_pow_right (by norm_num) (Nat.le_of_not_lt hge)))
        rw [hfe] at hfi
        exact Bool.noConfusion hfi
      simp [hai, hi64]

/-- C2: create fails NotSupported when features has bits outside the
supported set, InvalidArgument when object_prefix is empty, and
AlreadyExists when the object_prefix key is already present; otherwise
it writes size, order, features, object_prefix and snap_seq = 0, so that
get_size(NOSNAP) and get_features(NOSNAP) return exactly the supplied
values and a second create on the same object fails AlreadyExists. -/
theorem c2_create_roundtrip :
    (∀ st : Image, ∀ size order features : Nat, ∀ objpfx : String,
       features < 2 ^ 64 →
       (∃ i, features.testBit i = true ∧ RBD_FEATURES_ALL.testBit i = false) →
       create st size order features objpfx = .error .ENOSYS) ∧
    (∀ st : Image, ∀ size order features : Nat,
       features < 2 ^ 64 →
       (∀ i, features.testBit i = true → RBD_FEATURES_ALL.testBit i = true) →
       create st size order features "" = .error .EINVAL) ∧
    (∀ st : Image, ∀ size order features : Nat, ∀ objpfx : String, ∀ v : Val,
       features < 2 ^ 64 →
       (∀ i, features.testBit i = true → RBD_FEATURES_ALL.testBit i = true) →
       objpfx ≠ "" → lookupKey st.omap objectPfxKey = some v →
       create st size order features objpfx = .error .EEXIST) ∧
    (∀ st : Image, ∀ size order features : Nat, ∀ objpfx : String,
       features < 2 ^ 64 →
       (∀ i, features.testBit i = true → RBD_FEATURES_ALL.testBit i = true) →
       objpfx ≠ "" → lookupKey st.omap objectPfxKey = none →
       ∃ st2, create st size order features objpfx = .ok st2 ∧
         getSize st2 CEPH_NOSNAP = .ok (order, size) ∧
         getFeatures st2 CEPH_NOSNAP =
           .ok (features, features &&& RBD_FEATURES_INCOMPATIBLE) ∧
         lookupKey st2.omap objectPfxKey = some (.vStr objpfx) ∧
         lookupKey st2.omap snapSeqKey = some (.vU64 0) ∧
         (∀ size2 order2 features2 : Nat, ∀ objpfx2 : String,
            features2 < 2 ^ 64 →
            (∀ i, features2.testBit i = true → RBD_FEATURES_ALL.testBit i = true) →
            objpfx2 ≠ "" →
            create st2 size2 order2 features2 objpfx2 = .error .EEXIST)) := by
  have hALL : RBD_FEATURES_ALL < 2 ^ 64 := by norm_num [RBD_FEATURES_ALL, RBD_FEATURE_LAYERING]
  refine ⟨?_, ?_, ?_, ?_⟩
  · intro st size order features objpfx hf ⟨i, hbit, hout⟩
    have hg : ¬ (features &&& complement64 RBD_FEATURES_ALL = 0) := by
      intro h0
      have := (land_complement64_zero_iff features RBD_FEATURES_ALL hf hALL).mp h0 i hbit
      rw [hout] at this
      exact Bool.noConfusion this
    simp only [create]
    rw [if_pos hg]
  · intro st size order features hf hsub
    have hg : features &&& complement64 RBD_FEATURES_ALL = 0 :=
      (land_complement64_zero_iff features RBD_FEATURES_ALL hf hALL).mpr hsub
    simp only [create]
    rw [if_neg (by simp [hg])]
    simp
  · intro st size order features objpfx v hf hsub hne hpfx
    have hg : features &&& complement64 RBD_FEATURES_ALL = 0 :=
      (land_complement64_zero_iff features RBD_FEATURES_ALL hf hALL).mpr hsub
    simp only [create]
    rw [if_neg (by simp [hg]), if_neg hne, hpfx]
  · intro st size order features objpfx hf hsub hne hpfx
    have hg : features &&& complement64 RBD_FEATURES_ALL = 0 :=
      (land_complement64_zero_iff features RBD_FEATURES_ALL hf hALL).mpr hsub
    refine ⟨imgSet (imgSet (imgSet (imgSet (imgSet st sizeKey (.vU64 size))
      orderKey (.vU8 order)) featuresKey (.vU64 features))
      objectPfxKey (.vStr objpfx)) snapSeqKey (.vU64 0), ?_, ?_, ?_, ?_, ?_, ?_⟩
    · simp only [create]
      rw [if_neg (by simp [hg]), if_neg hne, hpfx]
    · have hfeat : lookupKey (setVal (setVal (setVal (setVal (setVal st.omap
          sizeKey (.vU64 size)) orderKey (.vU8 order)) featuresKey (.vU64 features))
          objectPfxKey (.vStr objpfx)) snapSeqKey (.vU64 0)) featuresKey =
          some (.vU64 features) := by
        rw [lookupKey_setVal_ne _ _ _ _ (by decide),
          lookupKey_setVal_ne _ _ _ _ (by decide), lookupKey_setVal_self]
      have hord : lookupKey (setVal (setVal (setVal (setVal (setVal st.omap
          sizeKey (.vU64 size)) orderKey (.vU8 order)) featuresKey (.vU64 features))
          objectPfxKey (.vStr objpfx)) snapSeqKey (.vU64 0)) orderKey =
          some (.vU8 order) := by
        rw [lookupKey_setVal_ne _ _ _ _ (by decide),
          lookupKey_setVal_ne _ _ _ _ (by decide),
          lookupKey_setVal_ne _ _ _ _ (by decide), lookupKey_setVal_self]
      have hsz : lookupKey (setVal (setVal (setVal (setVal (setVal st.omap
          sizeKey (.vU64 size)) orderKey (.vU8 order)) featuresKey (.vU64 features))
          objectPfxKey (.vStr objpfx)) snapSeqKey (.vU64 0)) sizeKey =
          some (.vU64 size) := by
        rw [lookupKey_setVal_ne _ _ _ _ (by decide),
          lookupKey_setVal_ne _ _ _ _ (by decide),
          lookupKey_setVal_ne _ _ _ _ (by decide),
          lookupKey_setVal_ne _ _ _ _ (by decide), lookupKey_setVal_self]
      simp only [getSize, requireFeature, readU64, readU8, imgSet_omap, hfeat,
        hord, hsz, Nat.and_zero]
      simp
    · have hfeat : lookupKey (setVal (setVal (setVal (setVal (setVal st.omap
          sizeKey (.vU64 size)) orderKey (.vU8 order)) featuresKey (.vU64 features))
          objectPfxKey (.vStr objpfx)) snapSeqKey (.vU64 0)) featuresKey =
          some (.vU64 features) := by
        rw [lookupKey_setVal_ne _ _ _ _ (by decide),
          lookupKey_setVal_ne _ _ _ _ (by decide), lookupKey_setVal_self]
      simp only [getFeatures, readU64, imgSet_omap, hfeat]
      simp
    · simp only [imgSet_omap]
      rw [lookupKey_setVal_ne _ _ _ _ (by decide), lookupKey_setVal_self]
    · simp only [imgSet_omap]
      exact lookupKey_setVal_self _ _ _
    · intro size2 order2 features2 objpfx2 hf2 hsub2 hne2
      have hg2 : features2 &&& complement64 RBD_FEATURES_ALL = 0 :=
        (land_complement64_zero_iff features2 RBD_FEATURES_ALL hf2 hALL).mpr hsub2
      have hpfx2 : lookupKey (setVal (setVal (setVal (setVal (setVal st.omap
          sizeKey (.vU64 size)) orderKey (.vU8 order)) featuresKey (.vU64 features))
          objectPfxKey (.vStr objpfx)) snapSeqKey (.vU64 0)) objectPfxKey =
          some (.vStr objpfx) := by
        rw [lookupKey_setVal_ne _ _ _ _ (by decide), lookupKey_setVal_self]
      simp only [create, imgSet_omap]
      rw [if_neg (by simp [hg2]), if_neg hne2, hpfx2]

/-- Witness for C2 at concrete inputs: feature bit 1 is rejected, empty
prefix is rejected, a present prefix key is rejected, and a valid create
round-trips through get_size and get_features and refuses a second
create. -/
theorem c2_create_roundtrip_witness :
    create ⟨false, []⟩ 1024 22 2 "rb.0" = .error .ENOSYS ∧
    create ⟨false, []⟩ 1024 22 1 "" = .error .EINVAL ∧
    create ⟨true, [("object_prefix", .vStr "x")]⟩ 1024 22 1 "rb.0" = .error .EEXIST ∧
    (∃ st2, create ⟨false, []⟩ 1024 22 1 "rb.0" = .ok st2 ∧
      getSize st2 CEPH_NOSNAP = .ok (22, 1024) ∧
      getFeatures st2 CEPH_NOSNAP = .ok (1, 1 &&& RBD_FEATURES_INCOMPATIBLE) ∧
      create st2 4096 23 0 "rb.1" = .error .EEXIST) := by
  obtain ⟨p1, p2, p3, p4⟩ := c2_create_roundtrip
  refine ⟨?_, ?_, ?_, ?_⟩
  · exact p1 ⟨false, []⟩ 1024 22 2 "rb.0" (by norm_num) ⟨1, by decide, by decide⟩
  · exact p2 ⟨false, []⟩ 1024 22 1 (by norm_num) (by intro i h; exact h)
  · exact p3 ⟨true, [("object_prefix", .vStr "x")]⟩ 1024 22 1 "rb.0" (.vStr "x")
      (by norm_num) (by intro i h; exact h) (by decide) (by decide)
  · obtain ⟨st2, h1, h2, h3, _, _, h6⟩ := p4 ⟨false, []⟩ 1024 22 1 "rb.0"
      (by norm_num) (by intro i h; exact h) (by decide) (by decide)
    exact ⟨st2, h1, h2, h3, h6 4096 23 0 "rb.1" (by norm_num)
      (by intro i h; simp at h) (by decide)⟩

/-- Counterexample for C9: with the locker set stored (non-empty) but
the type key absent, list_locks does not treat the absent type flag as
"not exclusive" — it keeps the failed type-flag read's return value and
fails ENOENT instead of returning the set with exclusive = false. -/
theorem c9_list_locks_counterexample :
    listLocks ⟨true, [("features", .vU64 1),
        ("lock_lockers", .vLockers [("client.4", "c")])]⟩ = .error .ENOENT ∧
      listLocks ⟨true, [("features", .vU64 1),
        ("lock_lockers", .vLockers [("client.4", "c")])]⟩ ≠
        .ok ([("client.4", "c")], false) := by
  constructor
  · rfl
  · intro h
    exact Except.noConfusion h

/-- C9 amended: list_locks returns the full (requester, cookie) set plus
a boolean that is true exactly when the stored type flag equals
exclusive; absence of the lockers key yields the empty set with "not
exclusive"; but when the locker set is present and the type key is
absent, the call fails NotFound. -/
theorem c9_list_locks_amended (st : Image) (f : Nat)
    (hf : lookupKey st.omap featuresKey = some (.vU64 f)) :
    (lookupKey st.omap locksKey = none → listLocks st = .ok ([], false)) ∧
    (∀ L t, lookupKey st.omap locksKey = some (.vLockers L) →
       lookupKey st.omap lockTypeKey = some (.vStr t) →
       listLocks st = .ok (L, (t = lockExclStr : Bool))) ∧
    (∀ L, lookupKey st.omap locksKey = some (.vLockers L) →
       lookupKey st.omap lockTypeKey = none →
       listLocks st = .error .ENOENT) := by
  have hreq : requireFeature st 0 = .ok () := by
    simp [requireFeature, readU64, hf]
  refine ⟨?_, ?_, ?_⟩
  · intro hnone
    simp only [listLocks, hreq, hnone]
    have hb : (("" = lockExclStr : Bool)) = false := by decide
    rw [hb]
  · intro L t hl ht
    simp only [listLocks, hreq, hl, readStr, ht]
  · intro L hl ht
    simp only [listLocks, hreq, hl, readStr, ht]

/-- Witness for C9 amended, at the three concrete lock states. -/
theorem c9_list_locks_amended_witness :
    listLocks ⟨true, [("features", .vU64 1)]⟩ = .ok ([], false) ∧
    listLocks ⟨true, [("features", .vU64 1),
      ("lock_lockers", .vLockers [("a", "c")]),
      ("lock_type", .vStr "exclusive")]⟩ = .ok ([("a", "c")], true) ∧
    listLocks ⟨true, [("features", .vU64 1),
      ("lock_lockers", .vLockers [("a", "c")])]⟩ = .error .ENOENT := by
  refine ⟨?_, ?_, ?_⟩
  · exact (c9_list_locks_amended ⟨true, [("features", .vU64 1)]⟩ 1 (by decide)).1
      (by decide)
  · have h := (c9_list_locks_amended ⟨true, [("features", .vU64 1),
      ("lock_lockers", .vLockers [("a", "c")]),
      ("lock_type", .vStr "exclusive")]⟩ 1 (by decide)).2.1 [("a", "c")] "exclusive"
      (by decide) (by decide)
    simpa using h
  · exact (c9_list_locks_amended ⟨true, [("features", .vU64 1),
      ("lock_lockers", .vLockers [("a", "c")])]⟩ 1 (by decide)).2.2 [("a", "c")]
      (by decide) (by decide)

/-- Lock-type invariant of the data model: when the stored type flag is
exclusive, the locker set has at most one member. -/
def LockInv (st : Image) : Prop :=
  ∀ L, lookupKey st.omap locksKey = some (.vLockers L) →
    lookupKey st.omap lockTypeKey = some (.vStr lockExclStr) → L.length ≤ 1

theorem lockImageIns_ok (st : Image) (req t c : String)
    (L : List (String × String)) (st2 : Image)
    (h : lockImageIns st req t c L = .ok st2) :
    L.contains (req, c) = false ∧
      st2 = ⟨true, setVal (setVal st.omap locksKey
        (.vLockers (sortedInsertPair L (req, c)))) lockTypeKey (.vStr t)⟩ := by
  simp only [lockImageIns, insertPair] at h
  by_cases hc : L.contains (req, c) = true
  · rw [if_pos hc] at h
    simp at h
  · rw [if_neg hc] at h
    simp at h
    exact ⟨Bool.not_eq_true _ ▸ hc, h.symm⟩

theorem lockImageGo_ok (st : Image) (req t c : String) (excl hadKey : Bool)
    (L : List (String × String)) (st2 : Image)
    (h : lockImageGo st req t c excl hadKey L = .ok st2) :
    lockImageIns st req t c L = .ok st2 ∧
      (excl = true → hadKey = true → L = []) := by
  simp only [lockImageGo] at h
  by_cases h1 : (excl && hadKey && !L.isEmpty) = true
  · rw [if_pos h1] at h
    exact absurd h (by simp)
  · rw [if_neg h1] at h
    have hside : excl = true → hadKey = true → L = [] := by
      intro he hk
      rw [he, hk] at h1
      simp at h1
      exact h1
    by_cases h2 : (!L.isEmpty && !excl) = true
    · rw [if_pos h2] at h
      cases hrs : readStr st.omap lockTypeKey with
      | error e => rw [hrs] at h; exact absurd h (by simp)
      | ok t2 =>
        rw [hrs] at h
        simp only at h
        by_cases h3 : t2 ≠ t
        · rw [if_pos h3] at h
          exact absurd h (by simp)
        · rw [if_neg h3] at h
          exact ⟨h, hside⟩
    · rw [if_neg h2] at h
      exact ⟨h, hside⟩

theorem lockImage_ok (st : Image) (req t c : String) (st2 : Image)
    (h : lockImage st req t c = .ok st2) :
    ∃ L, (lookupKey st.omap locksKey = some (.vLockers L) ∨
          (lookupKey st.omap locksKey = none ∧ L = [])) ∧
      (t = lockExclStr → L = []) ∧
      L.contains (req, c) = false ∧
      st2 = ⟨true, setVal (setVal st.omap locksKey
        (.vLockers (sortedInsertPair L (req, c)))) lockTypeKey (.vStr t)⟩ := by
  simp only [lockImage] at h
  cases hl : lookupKey st.omap locksKey with
  | none =>
    rw [hl] at h
    obtain ⟨hins, _⟩ := lockImageGo_ok _ _ _ _ _ _ _ _ h
    obtain ⟨hc, hst⟩ := lockImageIns_ok _ _ _ _ _ _ hins
    exact ⟨[], Or.inr ⟨rfl, rfl⟩, fun _ => rfl, hc, hst⟩
  | some v =>
    rw [hl] at h
    cases v with
    | vLockers L =>
      obtain ⟨hins, hside⟩ := lockImageGo_ok _ _ _ _ _ _ _ _ h
      obtain ⟨hc, hst⟩ := lockImageIns_ok _ _ _ _ _ _ hins
      refine ⟨L, Or.inl rfl, ?_, hc, hst⟩
      intro ht
      apply hside _ rfl
      simp [ht]
    | vU64 n => exact absurd h (by simp)
    | vU8 n => exact absurd h (by simp)
    | vStr s => exact absurd h (by simp)
    | vSnap s => exact absurd h (by simp)
    | vParent p => exact absurd h (by simp)

theorem removeLock_ok (st : Image) (inst c : String) (st2 : Image)
    (h : removeLock st inst c = .ok st2) :
    ∃ L, lookupKey st.omap locksKey = some (.vLockers L) ∧
      L.contains (inst, c) = true ∧
      st2 = ⟨true, setVal st.omap locksKey (.vLockers (L.erase (inst, c)))⟩ := by
  simp only [removeLock] at h
  cases hl : lookupKey st.omap locksKey with
  | none => rw [hl] at h; exact absurd h (by simp)
  | some v =>
    rw [hl] at h
    cases v with
    | vLockers L =>
      simp only at h
      by_cases hc : L.contains (inst, c) = true
      · rw [if_pos hc] at h
        simp at h
        exact ⟨L, rfl, hc, h.symm⟩
      · rw [if_neg hc] at h
        exact absurd h (by simp)
    | vU64 n => exact absurd h (by simp)
    | vU8 n => exact absurd h (by simp)
    | vStr s => exact absurd h (by simp)
    | vSnap s => exact absurd h (by simp)
    | vParent p => exact absurd h (by simp)

theorem sortedInsertPair_length (L : List (String × String)) (p : String × String) :
    (sortedInsertPair L p).length = L.length + 1 := by
  induction L with
  | nil => rfl
  | cons q t ih =>
    simp only [sortedInsertPair]
    by_cases hq : pairLtB p q = true
    · simp [hq]
    · simp [hq, ih]

/-- C6: exclusive requests fail Busy on a non-empty locker set; shared
requests fail Busy when the set is non-empty and the stored type is not
shared; inserting an already-present (requester, cookie) pair fails
AlreadyExists; on success the updated set and the type flag are written
together in one batched write, and the invariant "an exclusive type flag
implies at most one locker" is preserved by every lock operation. -/
theorem c6_lock_image :
    (∀ st : Image, ∀ f : Nat, ∀ req c : String, ∀ L,
       lookupKey st.omap featuresKey = some (.vU64 f) →
       lookupKey st.omap locksKey = some (.vLockers L) → L ≠ [] →
       lockImageExclusive st req c = .error .EBUSY) ∧
    (∀ st : Image, ∀ f : Nat, ∀ req c t : String, ∀ L,
       lookupKey st.omap featuresKey = some (.vU64 f) →
       lookupKey st.omap locksKey = some (.vLockers L) → L ≠ [] →
       lookupKey st.omap lockTypeKey = some (.vStr t) → t ≠ lockSharedStr →
       lockImageShared st req c = .error .EBUSY) ∧
    (∀ st : Image, ∀ f : Nat, ∀ req c : String, ∀ L,
       lookupKey st.omap featuresKey = some (.vU64 f) →
       lookupKey st.omap locksKey = some (.vLockers L) →
       lookupKey st.omap lockTypeKey = some (.vStr lockSharedStr) →
       L.contains (req, c) = true →
       lockImageShared st req c = .error .EEXIST) ∧
    (∀ st st2 : Image, ∀ req c ty : String,
       ((ty = lockExclStr ∧ lockImageExclusive st req c = .ok st2) ∨
        (ty = lockSharedStr ∧ lockImageShared st req c = .ok st2)) →
       ∃ L, L.contains (req, c) = false ∧
         (ty = lockExclStr → L = []) ∧
         st2 = ⟨true, setVal (setVal st.omap locksKey
           (.vLockers (sortedInsertPair L (req, c)))) lockTypeKey (.vStr ty)⟩ ∧
         lookupKey st2.omap locksKey = some (.vLockers (sortedInsertPair L (req, c))) ∧
         lookupKey st2.omap lockTypeKey = some (.vStr ty)) ∧
    (∀ st st2 : Image, ∀ r2 c2 : String, LockInv st →
       (lockImageExclusive st r2 c2 = .ok st2 ∨ lockImageShared st r2 c2 = .ok st2 ∨
        unlockImage st r2 c2 = .ok st2 ∨ breakLock st r2 c2 = .ok st2) →
       LockInv st2) := by
  have hgoLock : ∀ st : Image, ∀ r2 c2 t : String, ∀ st2 : Image,
      (match requireFeature st 0 with
        | .error e => (.error e : Except Err Image)
        | .ok _ => lockImage st r2 t c2) = .ok st2 →
      lockImage st r2 t c2 = .ok st2 := by
    intro st r2 c2 t st2 h
    cases hrf : requireFeature st 0 with
    | error e => rw [hrf] at h; exact absurd h (by simp)
    | ok u => rw [hrf] at h; exact h
  have hinsPost : ∀ st st2 : Image, ∀ r2 c2 t : String, ∀ L,
      st2 = (⟨true, setVal (setVal st.omap locksKey
        (.vLockers (sortedInsertPair L (r2, c2)))) lockTypeKey (.vStr t)⟩ : Image) →
      lookupKey st2.omap locksKey = some (.vLockers (sortedInsertPair L (r2, c2))) ∧
      lookupKey st2.omap lockTypeKey = some (.vStr t) := by
    intro st st2 r2 c2 t L hst
    subst hst
    constructor
    · rw [lookupKey_setVal_ne _ _ _ _ (by decide), lookupKey_setVal_self]
    · exact lookupKey_setVal_self _ _ _
  refine ⟨?_, ?_, ?_, ?_, ?_⟩
  · intro st f req c L hf hL hne
    have hreq : requireFeature st 0 = .ok () := by
      simp [requireFeature, readU64, hf]
    have hemp : L.isEmpty = false := by
      cases L with
      | nil => exact absurd rfl hne
      | cons a t => rfl
    simp only [lockImageExclusive, hreq, lockImage, hL, lockImageGo, hemp]
    simp
  · intro st f req c t L hf hL hne ht htne
    have hreq : requireFeature st 0 = .ok () := by
      simp [requireFeature, readU64, hf]
    have hemp : L.isEmpty = false := by
      cases L with
      | nil => exact absurd rfl hne
      | cons a t2 => rfl
    have hexcl : (decide (lockSharedStr = lockExclStr)) = false := by decide
    have hrs : readStr st.omap lockTypeKey = .ok t := by simp [readStr, ht]
    simp only [lockImageShared, hreq, lockImage, hL, lockImageGo]
    rw [if_neg (by simp [hexcl, hemp]), if_pos (by simp [hexcl, hemp]), hrs]
    show (if t ≠ lockSharedStr then (.error .EBUSY : Except Err Image)
      else lockImageIns st req lockSharedStr c L) = .error .EBUSY
    rw [if_pos htne]
  · intro st f req c L hf hL ht hcon
    have hreq : requireFeature st 0 = .ok () := by
      simp [requireFeature, readU64, hf]
    have hne : L ≠ [] := by
      intro h0
      rw [h0] at hcon
      exact Bool.noConfusion hcon
    have hemp : L.isEmpty = false := by
      cases L with
      | nil => exact absurd rfl hne
      | cons a t2 => rfl
    have hexcl : (decide (lockSharedStr = lockExclStr)) = false := by decide
    have hrs : readStr st.omap lockTypeKey = .ok lockSharedStr := by
      simp [readStr, ht]
    simp only [lockImageShared, hreq, lockImage, hL, lockImageGo]
    rw [if_neg (by simp [hexcl, hemp]), if_pos (by simp [hexcl, hemp]), hrs]
    show (if lockSharedStr ≠ lockSharedStr then (.error .EBUSY : Except Err Image)
      else lockImageIns st req lockSharedStr c L) = .error .EEXIST
    rw [if_neg (by simp)]
    have hmem : (req, c) ∈ L := by simpa using hcon
    simp [lockImageIns, insertPair, hcon, hmem]
  · intro st st2 req c ty hcase
    rcases hcase with ⟨hty, hok⟩ | ⟨hty, hok⟩
    · subst hty
      simp only [lockImageExclusive] at hok
      have hok2 := hgoLock _ _ _ _ _ hok
      obtain ⟨L, _, hside, hcon, hst⟩ := lockImage_ok _ _ _ _ _ hok2
      obtain ⟨hl1, hl2⟩ := hinsPost _ _ _ _ _ _ hst
      exact ⟨L, hcon, hside, hst, hl1, hl2⟩
    · subst hty
      simp only [lockImageShared] at hok
      have hok2 := hgoLock _ _ _ _ _ hok
      obtain ⟨L, _, hside, hcon, hst⟩ := lockImage_ok _ _ _ _ _ hok2
      obtain ⟨hl1, hl2⟩ := hinsPost _ _ _ _ _ _ hst
      exact ⟨L, hcon, hside, hst, hl1, hl2⟩
  · intro st st2 r2 c2 hinv hcase
    have hlockPres : ∀ t : String, lockImage st r2 t c2 = .ok st2 → LockInv st2 := by
      intro t hok
      obtain ⟨L, _, hside, hcon, hst⟩ := lockImage_ok _ _ _ _ _ hok
      subst hst
      intro L2 hL2 hT2
      rw [lookupKey_setVal_ne _ _ _ _ (by decide), lookupKey_setVal_self] at hL2
      rw [lookupKey_setVal_self] at hT2
      have hL2e : sortedInsertPair L (r2, c2) = L2 := by
        injection hL2 with hv
        injection hv
      have hte : t = lockExclStr := by
        injection hT2 with hv
        injection hv
      have hLnil : L = [] := hside hte
      rw [← hL2e, hLnil, sortedInsertPair_length]
      simp
    have hremPres : removeLock st r2 c2 = .ok st2 → LockInv st2 := by
      intro hok
      obtain ⟨L, hL, hcon, hst⟩ := removeLock_ok _ _ _ _ hok
      subst hst
      intro L2 hL2 hT2
      rw [lookupKey_setVal_self] at hL2
      rw [lookupKey_setVal_ne _ _ _ _ (by decide)] at hT2
      have hL2e : L.erase (r2, c2) = L2 := by
        injection hL2 with hv
        injection hv
      have hlen := hinv L hL hT2
      rw [← hL2e]
      calc (L.erase (r2, c2)).length ≤ L.length :=
          List.Sublist.length_le (List.erase_sublist _ _)
        _ ≤ 1 := hlen
    rcases hcase with hok | hok | hok | hok
    · simp only [lockImageExclusive] at hok
      exact hlockPres _ (hgoLock _ _ _ _ _ hok)
    · simp only [lockImageShared] at hok
      exact hlockPres _ (hgoLock _ _ _ _ _ hok)
    · simp only [unlockImage] at hok
      cases hrf : requireFeature st 0 with
      | error e => rw [hrf] at hok; exact absurd hok (by simp)
      | ok u => rw [hrf] at hok; exact hremPres hok
    · simp only [breakLock] at hok
      cases hrf : requireFeature st 0 with
      | error e => rw [hrf] at hok; exact absurd hok (by simp)
      | ok u => rw [hrf] at hok; exact hremPres hok

/-- Witness for C6 at concrete lock states: an exclusive and a shared
request bounce off an exclusively locked image, a duplicate shared
insert fails, a successful exclusive lock writes both keys, and the
exclusivity invariant carries over. -/
theorem c6_lock_image_witness :
    lockImageExclusive ⟨true, [("features", .vU64 1),
      ("lock_lockers", .vLockers [("a", "c1")]),
      ("lock_type", .vStr "exclusive")]⟩ "b" "c2" = .error .EBUSY ∧
    lockImageShared ⟨true, [("features", .vU64 1),
      ("lock_lockers", .vLockers [("a", "c1")]),
      ("lock_type", .vStr "exclusive")]⟩ "b" "c2" = .error .EBUSY ∧
    lockImageShared ⟨true, [("features", .vU64 1),
      ("lock_lockers", .vLockers [("a", "c1")]),
      ("lock_type", .vStr "shared")]⟩ "a" "c1" = .error .EEXIST ∧
    (∃ L, L.contains ("a", "c1") = false ∧
      (lockExclStr = lockExclStr → L = []) ∧
      (⟨true, [("features", .vU64 1), ("lock_lockers", .vLockers [("a", "c1")]),
         ("lock_type", .vStr "exclusive")]⟩ : Image) =
        ⟨true, setVal (setVal (⟨true, [("features", .vU64 1)]⟩ : Image).omap locksKey
          (.vLockers (sortedInsertPair L ("a", "c1")))) lockTypeKey
          (.vStr lockExclStr)⟩ ∧
      lookupKey [("features", Val.vU64 1), ("lock_lockers", Val.vLockers [("a", "c1")]),
        ("lock_type", Val.vStr "exclusive")] locksKey =
        some (.vLockers (sortedInsertPair L ("a", "c1"))) ∧
      lookupKey [("features", Val.vU64 1), ("lock_lockers", Val.vLockers [("a", "c1")]),
        ("lock_type", Val.vStr "exclusive")] lockTypeKey =
        some (.vStr lockExclStr)) ∧
    LockInv ⟨true, [("features", .vU64 1), ("lock_lockers", .vLockers [("a", "c1")]),
      ("lock_type", .vStr "exclusive")]⟩ := by
  obtain ⟨p1, p2, p3, p4, p5⟩ := c6_lock_image
  refine ⟨?_, ?_, ?_, ?_, ?_⟩
  · exact p1 ⟨true, [("features", .vU64 1), ("lock_lockers", .vLockers [("a", "c1")]),
      ("lock_type", .vStr "exclusive")]⟩ 1 "b" "c2" [("a", "c1")]
      (by decide) (by decide) (by decide)
  · exact p2 ⟨true, [("features", .vU64 1), ("lock_lockers", .vLockers [("a", "c1")]),
      ("lock_type", .vStr "exclusive")]⟩ 1 "b" "c2" "exclusive" [("a", "c1")]
      (by decide) (by decide) (by decide) (by decide) (by decide)
  · exact p3 ⟨true, [("features", .vU64 1), ("lock_lockers", .vLockers [("a", "c1")]),
      ("lock_type", .vStr "shared")]⟩ 1 "a" "c1" [("a", "c1")]
      (by decide) (by decide) (by decide) (by decide)
  · exact p4 ⟨true, [("features", .vU64 1)]⟩
      ⟨true, [("features", .vU64 1), ("lock_lockers", .vLockers [("a", "c1")]),
        ("lock_type", .vStr "exclusive")]⟩ "a" "c1" lockExclStr
      (Or.inl ⟨rfl, by rfl⟩)
  · apply p5 ⟨true, [("features", .vU64 1)]⟩
      ⟨true, [("features", .vU64 1), ("lock_lockers", .vLockers [("a", "c1")]),
        ("lock_type", .vStr "exclusive")]⟩ "a" "c1"
    · intro L hL hT
      exact Option.noConfusion hL
    · exact Or.inl (by rfl)

/-- C10: a removed snapshot's id can be reused when it equals the
current snap_seq: the stale check rejects only ids strictly below
snap_seq, and the duplicate check consults only currently-stored
records, so snapshot_add with id = snap_seq and a fresh name succeeds
when no stored record carries that id or name. -/
theorem c10_snapshot_id_reuse (st : Image) (f s sz : Nat) (nm : String)
    (hf : lookupKey st.omap featuresKey = some (.vU64 f))
    (hq : lookupKey st.omap snapSeqKey = some (.vU64 s))
    (hmax : s ≤ CEPH_MAXSNAP)
    (hsz : lookupKey st.omap sizeKey = some (.vU64 sz))
    (hsnaps : ∀ kv ∈ snapEntries st.omap,
       ∃ r, kv.2 = Val.vSnap r ∧ r.name ≠ nm ∧ r.id ≠ s)
    (hpar : lookupKey st.omap parentKey = none ∨
       ∃ p, lookupKey st.omap parentKey = some (.vParent p)) :
    ∃ st2, snapshotAdd st nm s = .ok st2 := by
  have hreq : requireFeature st 0 = .ok () := by
    simp [requireFeature, readU64, hf]
  have hq2 : readU64 st.omap snapSeqKey = .ok s := by simp [readU64, hq]
  have hsz2 : readU64 st.omap sizeKey = .ok sz := by simp [readU64, hsz]
  have hf2 : readU64 st.omap featuresKey = .ok f := by simp [readU64, hf]
  have hscan : dupScan nm s (snapEntries st.omap) = .ok () := by
    rw [dupScan_eq_linScan]
    exact linScan_ok _ _ _ hsnaps
  simp only [snapshotAdd, hreq]
  rw [if_neg (Nat.not_lt.mpr hmax)]
  simp only [hq2]
  rw [if_neg (Nat.lt_irrefl s)]
  simp only [hsz2, hf2, hscan]
  rcases hpar with hpar | ⟨p, hpar⟩
  · rw [hpar]
    exact ⟨_, rfl⟩
  · rw [hpar]
    exact ⟨_, rfl⟩

/-- Witness for C10: snap_seq is 2 (snapshot 2 was added and removed),
snapshot 1 is still stored; adding a fresh name with id 2 succeeds. -/
theorem c10_snapshot_id_reuse_witness :
    ∃ st2, snapshotAdd ⟨true, [("features", .vU64 1), ("size", .vU64 1024),
      ("snap_seq", .vU64 2),
      ("snapshot_0000000000000001", .vSnap ⟨1, "a", 1024, 1, noParent⟩)]⟩
      "c" 2 = .ok st2 := by
  apply c10_snapshot_id_reuse _ 1 2 1024 "c" (by decide) (by decide)
    (by decide) (by decide)
  · intro kv hkv
    have he : snapEntries [("features", Val.vU64 1), ("size", Val.vU64 1024),
        ("snap_seq", Val.vU64 2),
        ("snapshot_0000000000000001", Val.vSnap ⟨1, "a", 1024, 1, noParent⟩)] =
        [("snapshot_0000000000000001", Val.vSnap ⟨1, "a", 1024, 1, noParent⟩)] := rfl
    rw [he] at hkv
    simp at hkv
    subst hkv
    exact ⟨⟨1, "a", 1024, 1, noParent⟩, rfl, by decide, by decide⟩
  · exact Or.inl (by decide)

/-- C3: whatever the number of existing snapshot records, snapshot_add
examines all of them through the paginated scan and fails AlreadyExists
whenever any existing record carries the same name or the same id as the
one being added. -/
theorem c3_snapshot_add_duplicate (st : Image) (s sz ft id : Nat) (nm : String)
    (hf : lookupKey st.omap featuresKey = some (.vU64 ft))
    (hq : lookupKey st.omap snapSeqKey = some (.vU64 s))
    (hsz : lookupKey st.omap sizeKey = some (.vU64 sz))
    (hmax : id ≤ CEPH_MAXSNAP) (hs : s ≤ id)
    (hdec : ∀ kv ∈ snapEntries st.omap, ∃ r, kv.2 = Val.vSnap r)
    (hdup : ∃ kv ∈ snapEntries st.omap, ∃ r, kv.2 = Val.vSnap r ∧
       (r.name = nm ∨ r.id = id)) :
    snapshotAdd st nm id = .error .EEXIST := by
  have hreq : requireFeature st 0 = .ok () := by
    simp [requireFeature, readU64, hf]
  have hq2 : readU64 st.omap snapSeqKey = .ok s := by simp [readU64, hq]
  have hsz2 : readU64 st.omap sizeKey = .ok sz := by simp [readU64, hsz]
  have hf2 : readU64 st.omap featuresKey = .ok ft := by simp [readU64, hf]
  have hscan : dupScan nm id (snapEntries st.omap) = .error .EEXIST := by
    rw [dupScan_eq_linScan]
    exact linScan_eexist _ _ _ hdec hdup
  simp only [snapshotAdd, hreq]
  rw [if_neg (Nat.not_lt.mpr hmax)]
  simp only [hq2]
  rw [if_neg (Nat.not_lt.mpr hs)]
  simp only [hsz2, hf2, hscan]

/-- Witness for C3: with snapshot 1 named "a" stored, adding name "a"
under a fresh id fails AlreadyExists, and adding a fresh name under id 1
fails AlreadyExists. -/
theorem c3_snapshot_add_duplicate_witness :
    snapshotAdd ⟨true, [("features", .vU64 1), ("size", .vU64 1024),
      ("snap_seq", .vU64 1),
      ("snapshot_0000000000000001", .vSnap ⟨1, "a", 1024, 1, noParent⟩)]⟩
      "a" 5 = .error .EEXIST ∧
    snapshotAdd ⟨true, [("features", .vU64 1), ("size", .vU64 1024),
      ("snap_seq", .vU64 1),
      ("snapshot_0000000000000001", .vSnap ⟨1, "a", 1024, 1, noParent⟩)]⟩
      "z" 1 = .error .EEXIST := by
  have he : snapEntries [("features", Val.vU64 1), ("size", Val.vU64 1024),
      ("snap_seq", Val.vU64 1),
      ("snapshot_0000000000000001", Val.vSnap ⟨1, "a", 1024, 1, noParent⟩)] =
      [("snapshot_0000000000000001", Val.vSnap ⟨1, "a", 1024, 1, noParent⟩)] := rfl
  constructor
  · apply c3_snapshot_add_duplicate _ 1 1024 1 5 "a" (by decide) (by decide)
      (by decide) (by decide) (by decide)
    · intro kv hkv
      rw [he] at hkv
      simp at hkv
      subst hkv
      exact ⟨⟨1, "a", 1024, 1, noParent⟩, rfl⟩
    · refine ⟨("snapshot_0000000000000001", Val.vSnap ⟨1, "a", 1024, 1, noParent⟩),
        ?_, ⟨1, "a", 1024, 1, noParent⟩, rfl, Or.inl rfl⟩
      rw [he]
      simp
  · apply c3_snapshot_add_duplicate _ 1 1024 1 1 "z" (by decide) (by decide)
      (by decide) (by decide) (by decide)
    · intro kv hkv
      rw [he] at hkv
      simp at hkv
      subst hkv
      exact ⟨⟨1, "a", 1024, 1, noParent⟩, rfl⟩
    · refine ⟨("snapshot_0000000000000001", Val.vSnap ⟨1, "a", 1024, 1, noParent⟩),
        ?_, ⟨1, "a", 1024, 1, noParent⟩, rfl, Or.inr rfl⟩
      rw [he]
      simp

theorem leDecode8_leBytes8 (n : Nat) (hn : n < 2 ^ 64) :
    leDecode8 (leBytes8 n) = n := by
  simp only [leBytes8, leDecode8, List.getD]
  norm_num
  omega

theorem assignBid_step (n : Nat) (hn : n < 2 ^ 64) :
    assignBid (leBytes8 n) =
      .ok (leBytes8 ((n + 1) % 2 ^ 64), (n + 1) % 2 ^ 64) := by
  have hlen : (leBytes8 n).length = 8 := rfl
  simp only [assignBid, RBD_INFO_SIZE, hlen]
  rw [if_neg (by omega), if_pos (by omega)]
  rw [List.take_of_length_le (by rw [hlen])]
  rw [leDecode8_leBytes8 n hn]

theorem assignBidSeq_from : ∀ n k, k + n < 2 ^ 64 →
    (assignBidSeq n (leBytes8 k)).2 = List.range' (k + 1) n := by
  intro n
  induction n with
  | zero => intro k hk; rfl
  | succ n ih =>
    intro k hk
    rw [assignBidSeq, assignBid_step k (by omega)]
    have hmod : (k + 1) % 2 ^ 64 = k + 1 := Nat.mod_eq_of_lt (by omega)
    rw [hmod]
    simp only
    rw [ih (k + 1) (by omega), List.range'_succ]

/-- C8: starting from an absent or empty counter object, N calls of
assign_bid return 0, 1, ..., N-1 in order with no repeats or gaps, each
call fully replacing the counter; a counter object that is present but
shorter than the fixed record size makes assign_bid fail EIO without a
write. -/
theorem c8_assign_bid :
    (∀ N, N ≤ 2 ^ 64 → (assignBidSeq N []).2 = List.range N) ∧
    (∀ bytes : List Nat, 0 < bytes.length → bytes.length < RBD_INFO_SIZE →
       assignBid bytes = .error .Eio) := by
  constructor
  · intro N hN
    cases N with
    | zero => rfl
    | succ n =>
      have h0 : assignBid [] = .ok (leBytes8 0, 0) := rfl
      rw [assignBidSeq, h0]
      simp only
      rw [assignBidSeq_from n 0 (by omega)]
      rw [List.range_eq_range', List.range'_succ]
  · intro bytes h1 h2
    simp only [assignBid, RBD_INFO_SIZE] at h2 ⊢
    rw [if_pos (by omega)]

/-- Witness for C8: three calls from the empty counter return 0, 1, 2,
and a one-byte counter object fails EIO. -/
theorem c8_assign_bid_witness :
    (assignBidSeq 3 []).2 = List.range 3 ∧ assignBid [5] = .error .Eio := by
  obtain ⟨p1, p2⟩ := c8_assign_bid
  constructor
  · exact p1 3 (by norm_num)
  · exact p2 [5] (by norm_num) (by norm_num [RBD_INFO_SIZE])

/-- C5: get_snapcontext returns the stored snap_seq together with the
ids parsed from the paginated ascending key scan, reversed before
returning; on a well-formed image (sorted map, snapshot keys in the
fixed-width hex form) the returned ids are strictly descending and
contain the id of every stored snapshot record. -/
theorem c5_get_snapcontext (st : Image) (f s : Nat)
    (hf : lookupKey st.omap featuresKey = some (.vU64 f))
    (hq : lookupKey st.omap snapSeqKey = some (.vU64 s))
    (hsorted : st.omap.Pairwise (fun a b => strLtB a.1 b.1 = true))
    (hkeys : ∀ kv ∈ st.omap, strLtB "snapshot_" kv.1 = true →
       ∃ i, i < 2 ^ 64 ∧ kv.1 = keyFromSnapId i) :
    ∃ ids, getSnapcontext st = .ok (s, ids) ∧
      ids = ((snapKeysAfter st.omap).map snapIdFromKey).reverse ∧
      ids.Pairwise (fun a b => b < a) ∧
      (∀ i v, (keyFromSnapId i, v) ∈ st.omap → i < 2 ^ 64 → i ∈ ids) := by
  have hreq : requireFeature st 0 = .ok () := by
    simp [requireFeature, readU64, hf]
  have hq2 : readU64 st.omap snapSeqKey = .ok s := by simp [readU64, hq]
  refine ⟨((snapKeysAfter st.omap).map snapIdFromKey).reverse, ?_, rfl, ?_, ?_⟩
  · simp only [getSnapcontext, hreq, collectIds_eq, hq2]
  · rw [List.pairwise_reverse, List.pairwise_map]
    rw [snapKeysAfter, List.pairwise_map]
    have hfil := List.Pairwise.filter
      (fun kv => strLtB "snapshot_" kv.1) hsorted
    apply List.Pairwise.imp_of_mem ?_ hfil
    intro a b ha hb hab
    obtain ⟨hain, hapred⟩ := List.mem_filter.mp ha
    obtain ⟨hbin, hbpred⟩ := List.mem_filter.mp hb
    obtain ⟨ia, hia, hka⟩ := hkeys a hain hapred
    obtain ⟨ib, hib, hkb⟩ := hkeys b hbin hbpred
    rw [hka, hkb] at hab
    have hlt := keyFromSnapId_lt_rev ia ib hia hib hab
    rw [hka, hkb, snapIdFromKey_keyFromSnapId ia hia,
      snapIdFromKey_keyFromSnapId ib hib]
    exact hlt
  · intro i v hmem hi
    apply List.mem_reverse.mpr
    apply List.mem_map.mpr
    refine ⟨keyFromSnapId i, ?_, snapIdFromKey_keyFromSnapId i hi⟩
    rw [snapKeysAfter]
    apply List.mem_map.mpr
    refine ⟨(keyFromSnapId i, v), ?_, rfl⟩
    exact List.mem_filter.mpr ⟨hmem, strLtB_snapKey i⟩

/-- Witness for C5: snapshots 1 and 2 added in that order (snap_seq 2);
get_snapcontext returns snap_seq 2 and the ids [2, 1]. -/
theorem c5_get_snapcontext_witness :
    getSnapcontext ⟨true, [("features", .vU64 1), ("size", .vU64 1024),
      ("snap_seq", .vU64 2),
      ("snapshot_0000000000000001", .vSnap ⟨1, "a", 1024, 1, noParent⟩),
      ("snapshot_0000000000000002", .vSnap ⟨2, "b", 1024, 1, noParent⟩)]⟩ =
      .ok (2, [2, 1]) := by
  have hkeys : ∀ kv ∈ ([("features", Val.vU64 1), ("size", Val.vU64 1024),
      ("snap_seq", Val.vU64 2),
      ("snapshot_0000000000000001", Val.vSnap ⟨1, "a", 1024, 1, noParent⟩),
      ("snapshot_0000000000000002", Val.vSnap ⟨2, "b", 1024, 1, noParent⟩)] :
        List (String × Val)),
      strLtB "snapshot_" kv.1 = true → ∃ i, i < 2 ^ 64 ∧ kv.1 = keyFromSnapId i := by
    intro kv hkv hpred
    simp at hkv
    rcases hkv with rfl | rfl | rfl | rfl | rfl
    · exact absurd hpred (by decide)
    · exact absurd hpred (by decide)
    · exact absurd hpred (by decide)
    · exact ⟨1, by norm_num, by decide⟩
    · exact ⟨2, by norm_num, by decide⟩
  obtain ⟨ids, h1, h2, h3, h4⟩ := c5_get_snapcontext
    ⟨true, [("features", .vU64 1), ("size", .vU64 1024),
      ("snap_seq", .vU64 2),
      ("snapshot_0000000000000001", .vSnap ⟨1, "a", 1024, 1, noParent⟩),
      ("snapshot_0000000000000002", .vSnap ⟨2, "b", 1024, 1, noParent⟩)]⟩
    1 2 (by decide) (by decide) (by decide) hkeys
  rw [h1, h2]
  rfl

theorem create_ok (st : Image) (size order features : Nat) (objpfx : String)
    (st2 : Image) (h : create st size order features objpfx = .ok st2) :
    lookupKey st.omap objectPfxKey = none ∧
    st2.omap = setVal (setVal (setVal (setVal (setVal st.omap sizeKey
      (.vU64 size)) orderKey (.vU8 order)) featuresKey (.vU64 features))
      objectPfxKey (.vStr objpfx)) snapSeqKey (.vU64 0) := by
  simp only [create] at h
  by_cases h1 : features &&& complement64 RBD_FEATURES_ALL ≠ 0
  · rw [if_pos h1] at h
    exact absurd h (by simp)
  · rw [if_neg h1] at h
    by_cases h2 : objpfx = ""
    · rw [if_pos h2] at h
      exact absurd h (by simp)
    · rw [if_neg h2] at h
      cases hl : lookupKey st.omap objectPfxKey with
      | some v => rw [hl] at h; exact absurd h (by simp)
      | none =>
        rw [hl] at h
        simp only at h
        injection h with h3
        exact ⟨rfl, by rw [← h3]; rfl⟩

theorem setSize_ok (st : Image) (ns : Nat) (st2 : Image)
    (h : setSize st ns = .ok st2) :
    st2.omap = setVal st.omap sizeKey (.vU64 ns) ∨
    ∃ p : ParentRec, st2.omap = setVal (setVal st.omap sizeKey (.vU64 ns))
      parentKey (.vParent {p with overlap := ns}) := by
  simp only [setSize, imgSet_omap] at h
  cases hrf : requireFeature st 0 with
  | error e => rw [hrf] at h; exact absurd h (by simp)
  | ok u =>
    rw [hrf] at h
    simp only at h
    cases hrs : readU64 st.omap sizeKey with
    | error e => rw [hrs] at h; exact absurd h (by simp)
    | ok orig =>
      rw [hrs] at h
      simp only at h
      by_cases hlt : ns < orig
      · rw [if_pos hlt] at h
        cases hp : lookupKey (setVal st.omap sizeKey (.vU64 ns)) parentKey with
        | none =>
          rw [hp] at h
          simp only at h
          injection h with h3
          exact Or.inl (by rw [← h3]; rfl)
        | some v =>
          rw [hp] at h
          cases v with
          | vParent p =>
            simp only at h
            by_cases hc : (parentExists p && decide (ns < p.overlap)) = true
            · rw [if_pos hc] at h
              injection h with h3
              exact Or.inr ⟨p, by rw [← h3]; rfl⟩
            · rw [if_neg hc] at h
              injection h with h3
              exact Or.inl (by rw [← h3]; rfl)
          | vU64 n => exact absurd h (by simp)
          | vU8 n => exact absurd h (by simp)
          | vStr s2 => exact absurd h (by simp)
          | vSnap s2 => exact absurd h (by simp)
          | vLockers l => exact absurd h (by simp)
      · rw [if_neg hlt] at h
        injection h with h3
        exact Or.inl (by rw [← h3]; rfl)

theorem setParent_ok (st : Image) (pool : Int) (pimage : String)
    (snapid psize : Nat) (st2 : Image)
    (h : setParent st pool pimage snapid psize = .ok st2) :
    ∃ ov, st2.omap = setVal st.omap parentKey
      (.vParent ⟨pool, pimage, snapid, ov⟩) := by
  simp only [setParent, imgSet_omap] at h
  cases hce : checkExists st with
  | error e => rw [hce] at h; exact absurd h (by simp)
  | ok u =>
    rw [hce] at h
    simp only at h
    cases hrf : requireFeature st RBD_FEATURE_LAYERING with
    | error e => rw [hrf] at h; exact absurd h (by simp)
    | ok u2 =>
      rw [hrf] at h
      simp only at h
      by_cases hval : pool < 0 ∨ pimage = "" ∨ snapid = CEPH_NOSNAP ∨ psize = 0
      · rw [if_pos hval] at h
        exact absurd h (by simp)
      · rw [if_neg hval] at h
        cases hp : lookupKey st.omap parentKey with
        | some v =>
          rw [hp] at h
          cases v with
          | vParent p => exact absurd h (by simp)
          | vU64 n =>
            simp only at h
            cases hrs : readU64 st.omap sizeKey with
            | error e => rw [hrs] at h; exact absurd h (by simp)
            | ok oursize =>
              rw [hrs] at h
              simp only at h
              injection h with h3
              exact ⟨min oursize psize, by rw [← h3]; rfl⟩
          | vU8 n =>
            simp only at h
            cases hrs : readU64 st.omap sizeKey with
            | error e => rw [hrs] at h; exact absurd h (by simp)
            | ok oursize =>
              rw [hrs] at h
              simp only at h
              injection h with h3
              exact ⟨min oursize psize, by rw [← h3]; rfl⟩
          | vStr s2 =>
            simp only at h
            cases hrs : readU64 st.omap sizeKey with
            | error e => rw [hrs] at h; exact absurd h (by simp)
            | ok oursize =>
              rw [hrs] at h
              simp only at h
              injection h with h3
              exact ⟨min oursize psize, by rw [← h3]; rfl⟩
          | vSnap s2 =>
            simp only at h
            cases hrs : readU64 st.omap sizeKey with
            | error e => rw [hrs] at h; exact absurd h (by simp)
            | ok oursize =>
              rw [hrs] at h
              simp only at h
              injection h with h3
              exact ⟨min oursize psize, by rw [← h3]; rfl⟩
          | vLockers l =>
            simp only at h
            cases hrs : readU64 st.omap sizeKey with
            | error e => rw [hrs] at h; exact absurd h (by simp)
            | ok oursize =>
              rw [hrs] at h
              simp only at h
              injection h with h3
              exact ⟨min oursize psize, by rw [← h3]; rfl⟩
        | none =>
          rw [hp] at h
          simp only at h
          cases hrs : readU64 st.omap sizeKey with
          | error e => rw [hrs] at h; exact absurd h (by simp)
          | ok oursize =>
            rw [hrs] at h
            simp only at h
            injection h with h3
            exact ⟨min oursize psize, by rw [← h3]; rfl⟩

theorem removeParent_ok (st : Image) (st2 : Image)
    (h : removeParent st = .ok st2) :
    st2.omap = removeKeyL st.omap parentKey := by
  simp only [removeParent, imgRemove_omap] at h
  cases hce : checkExists st with
  | error e => rw [hce] at h; exact absurd h (by simp)
  | ok u =>
    rw [hce] at h
    simp only at h
    cases hrf : requireFeature st RBD_FEATURE_LAYERING with
    | error e => rw [hrf] at h; exact absurd h (by simp)
    | ok u2 =>
      rw [hrf] at h
      simp only at h
      cases hrp : readParent st.omap parentKey with
      | error e => rw [hrp] at h; exact absurd h (by simp)
      | ok p =>
        rw [hrp] at h
        simp only at h
        injection h with h3
        rw [← h3]
        rfl

theorem snapshotRemove_ok (st : Image) (id : Nat) (st2 : Image)
    (h : snapshotRemove st id = .ok st2) :
    st2.omap = removeKeyL st.omap (keyFromSnapId id) := by
  simp only [snapshotRemove, imgRemove_omap] at h
  cases hrf : requireFeature st 0 with
  | error e => rw [hrf] at h; exact absurd h (by simp)
  | ok u =>
    rw [hrf] at h
    simp only at h
    cases hl : lookupKey st.omap (keyFromSnapId id) with
    | none => rw [hl] at h; exact absurd h (by simp)
    | some v =>
      rw [hl] at h
      simp only at h
      injection h with h3
      rw [← h3]
      rfl

theorem snapshotAdd_ok (st : Image) (nm : String) (id : Nat) (st2 : Image)
    (h : snapshotAdd st nm id = .ok st2) :
    ∃ s sz ft pr, readU64 st.omap snapSeqKey = .ok s ∧ s ≤ id ∧
      st2.omap = setVal (setVal st.omap snapSeqKey (.vU64 id))
        (keyFromSnapId id) (.vSnap ⟨id, nm, sz, ft, pr⟩) := by
  simp only [snapshotAdd] at h
  cases hrf : requireFeature st 0 with
  | error e => rw [hrf] at h; exact absurd h (by simp)
  | ok u =>
    rw [hrf] at h
    simp only at h
    by_cases h1 : id > CEPH_MAXSNAP
    · rw [if_pos h1] at h
      exact absurd h (by simp)
    · rw [if_neg h1] at h
      cases hq : readU64 st.omap snapSeqKey with
      | error e => rw [hq] at h; exact absurd h (by simp)
      | ok s =>
        rw [hq] at h
        simp only at h
        by_cases h2 : id < s
        · rw [if_pos h2] at h
          exact absurd h (by simp)
        · rw [if_neg h2] at h
          cases hsz : readU64 st.omap sizeKey with
          | error e => rw [hsz] at h; exact absurd h (by simp)
          | ok sz =>
            rw [hsz] at h
            simp only at h
            cases hft : readU64 st.omap featuresKey with
            | error e => rw [hft] at h; exact absurd h (by simp)
            | ok ft =>
              rw [hft] at h
              simp only at h
              cases hds : dupScan nm id (snapEntries st.omap) with
              | error e => rw [hds] at h; exact absurd h (by simp)
              | ok u2 =>
                rw [hds] at h
                simp only at h
                cases hp : lookupKey st.omap parentKey with
                | none =>
                  rw [hp] at h
                  simp only at h
                  injection h with h3
                  exact ⟨s, sz, ft, noParent, rfl, Nat.le_of_not_lt h2,
                    by rw [← h3]⟩
                | some v =>
                  rw [hp] at h
                  cases v with
                  | vParent p =>
                    simp only at h
                    injection h with h3
                    exact ⟨s, sz, ft, p, rfl, Nat.le_of_not_lt h2, by rw [← h3]⟩
                  | vU64 n => exact absurd h (by simp)
                  | vU8 n => exact absurd h (by simp)
                  | vStr s2 => exact absurd h (by simp)
                  | vSnap s2 => exact absurd h (by simp)
                  | vLockers l => exact absurd h (by simp)

/-- One successful mutating operation of the controller on a new-format
image object. -/
inductive Step : Image → Image → Prop where
  | createS (st st2 : Image) (size order features : Nat) (objpfx : String)
      (h : create st size order features objpfx = .ok st2) : Step st st2
  | setSizeS (st st2 : Image) (ns : Nat)
      (h : setSize st ns = .ok st2) : Step st st2
  | snapAddS (st st2 : Image) (nm : String) (id : Nat)
      (h : snapshotAdd st nm id = .ok st2) : Step st st2
  | snapRemoveS (st st2 : Image) (id : Nat)
      (h : snapshotRemove st id = .ok st2) : Step st st2
  | setParentS (st st2 : Image) (pool : Int) (pimage : String)
      (snapid psize : Nat)
      (h : setParent st pool pimage snapid psize = .ok st2) : Step st st2
  | removeParentS (st st2 : Image)
      (h : removeParent st = .ok st2) : Step st st2
  | lockExS (st st2 : Image) (req c : String)
      (h : lockImageExclusive st req c = .ok st2) : Step st st2
  | lockShS (st st2 : Image) (req c : String)
      (h : lockImageShared st req c = .ok st2) : Step st st2
  | unlockS (st st2 : Image) (req c : String)
      (h : unlockImage st req c = .ok st2) : Step st st2
  | breakS (st st2 : Image) (l c : String)
      (h : breakLock st l c = .ok st2) : Step st st2

/-- States of a new-format image reachable from the empty object by the
controller's operations. -/
inductive Reachable : Image → Prop where
  | init : Reachable ⟨false, []⟩
  | step (st st2 : Image) (h1 : Reachable st) (h2 : Step st st2) :
      Reachable st2

/-- The snap_seq high-water-mark invariant, strengthened with the
existence-marker fact needed for its induction: every stored snapshot
record's id is at most the stored snap_seq, and a stored snap_seq
implies the object_prefix existence marker is set. -/
def SnapSeqInv (st : Image) : Prop :=
  (∀ kv ∈ st.omap, ∀ rec : SnapRec, kv.2 = Val.vSnap rec →
     ∃ s, lookupKey st.omap snapSeqKey = some (.vU64 s) ∧ rec.id ≤ s) ∧
  (lookupKey st.omap snapSeqKey ≠ none → lookupKey st.omap objectPfxKey ≠ none)

/-- A write frame: entries are old or non-snapshot values, and the
snap_seq and object_prefix keys are untouched. -/
def FrameW (m m2 : List (String × Val)) : Prop :=
  (∀ kv ∈ m2, kv ∈ m ∨ (∀ rec : SnapRec, kv.2 ≠ Val.vSnap rec)) ∧
  lookupKey m2 snapSeqKey = lookupKey m snapSeqKey ∧
  lookupKey m2 objectPfxKey = lookupKey m objectPfxKey

theorem frameW_trans (m m2 m3 : List (String × Val))
    (h1 : FrameW m m2) (h2 : FrameW m2 m3) : FrameW m m3 := by
  obtain ⟨a1, b1, c1⟩ := h1
  obtain ⟨a2, b2, c2⟩ := h2
  refine ⟨?_, by rw [b2, b1], by rw [c2, c1]⟩
  intro kv hkv
  rcases a2 kv hkv with hm | hn
  · exact a1 kv hm
  · exact Or.inr hn

theorem frameW_setVal (m : List (String × Val)) (k : String) (v : Val)
    (hk1 : snapSeqKey ≠ k) (hk2 : objectPfxKey ≠ k)
    (hv : ∀ rec : SnapRec, v ≠ Val.vSnap rec) :
    FrameW m (setVal m k v) := by
  refine ⟨?_, lookupKey_setVal_ne _ _ _ _ hk1, lookupKey_setVal_ne _ _ _ _ hk2⟩
  intro kv hkv
  rcases mem_setVal _ _ _ _ hkv with heq | hm
  · right
    intro rec hcon
    rw [heq] at hcon
    exact hv rec hcon
  · left
    exact hm

theorem frameW_removeKeyL (m : List (String × Val)) (k : String)
    (hk1 : snapSeqKey ≠ k) (hk2 : objectPfxKey ≠ k) :
    FrameW m (removeKeyL m k) := by
  refine ⟨?_, lookupKey_removeKeyL_ne _ _ _ hk1, lookupKey_removeKeyL_ne _ _ _ hk2⟩
  intro kv hkv
  exact Or.inl (mem_removeKeyL _ _ _ hkv)

theorem snapSeqInv_of_frameW (st st2 : Image) (hinv : SnapSeqInv st)
    (hf : FrameW st.omap st2.omap) : SnapSeqInv st2 := by
  obtain ⟨i1, i2⟩ := hinv
  obtain ⟨a, b, c⟩ := hf
  constructor
  · intro kv hkv rec hrec
    rcases a kv hkv with hm | hn
    · obtain ⟨s, hs, hle⟩ := i1 kv hm rec hrec
      exact ⟨s, by rw [b, hs], hle⟩
    · exact absurd hrec (hn rec)
  · intro hne
    rw [c]
    apply i2
    rw [← b]
    exact hne

theorem readU64_ok_lookup (m : List (String × Val)) (k : String) (s : Nat)
    (h : readU64 m k = .ok s) : lookupKey m k = some (.vU64 s) := by
  simp only [readU64] at h
  cases hl : lookupKey m k with
  | none => rw [hl] at h; exact absurd h (by simp)
  | some v =>
    rw [hl] at h
    cases v with
    | vU64 n =>
      simp only at h
      injection h with h2
      rw [h2]
    | vU8 n => exact absurd h (by simp)
    | vStr s2 => exact absurd h (by simp)
    | vSnap s2 => exact absurd h (by simp)
    | vParent p => exact absurd h (by simp)
    | vLockers l => exact absurd h (by simp)

theorem reachable_snapSeqInv (st : Image) (h : Reachable st) : SnapSeqInv st := by
  induction h with
  | init =>
    constructor
    · intro kv hkv
      exact absurd hkv (List.not_mem_nil kv)
    · intro hne
      exact absurd rfl hne
  | step st st2 h1 h2 ih =>
    cases h2 with
    | createS size order features objpfx h =>
      obtain ⟨hpfx, hshape⟩ := create_ok _ _ _ _ _ _ h
      constructor
      · intro kv hkv rec hrec
        rw [hshape] at hkv
        rcases mem_setVal _ _ _ _ hkv with heq | hkv2
        · rw [heq] at hrec
          exact absurd hrec (by simp)
        · rcases mem_setVal _ _ _ _ hkv2 with heq | hkv3
          · rw [heq] at hrec
            exact absurd hrec (by simp)
          · rcases mem_setVal _ _ _ _ hkv3 with heq | hkv4
            · rw [heq] at hrec
              exact absurd hrec (by simp)
            · rcases mem_setVal _ _ _ _ hkv4 with heq | hkv5
              · rw [heq] at hrec
                exact absurd hrec (by simp)
              · rcases mem_setVal _ _ _ _ hkv5 with heq | hkv6
                · rw [heq] at hrec
                  exact absurd hrec (by simp)
                · obtain ⟨s, hs, _⟩ := ih.1 kv hkv6 rec hrec
                  refine absurd hpfx (ih.2 ?_)
                  rw [hs]
                  exact fun hc => Option.noConfusion hc
      · intro _
        rw [hshape]
        rw [lookupKey_setVal_ne _ _ _ _ (by decide), lookupKey_setVal_self]
        exact fun hc => Option.noConfusion hc
    | setSizeS ns h =>
      rcases setSize_ok _ _ _ h with hsh | ⟨p, hsh⟩
      · apply snapSeqInv_of_frameW st st2 ih
        rw [hsh]
        exact frameW_setVal _ _ _ (by decide) (by decide) (by intro rec; simp)
      · apply snapSeqInv_of_frameW st st2 ih
        rw [hsh]
        exact frameW_trans _ _ _
          (frameW_setVal _ _ _ (by decide) (by decide) (by intro rec; simp))
          (frameW_setVal _ _ _ (by decide) (by decide) (by intro rec; simp))
    | snapAddS nm id h =>
      obtain ⟨s, sz, ft, pr, hq, hle, hshape⟩ := snapshotAdd_ok _ _ _ _ h
      have hqs : lookupKey st.omap snapSeqKey = some (.vU64 s) :=
        readU64_ok_lookup _ _ _ hq
      have hne1 : snapSeqKey ≠ keyFromSnapId id :=
        Ne.symm (keyFromSnapId_ne id snapSeqKey (by decide))
      have hne2 : objectPfxKey ≠ keyFromSnapId id :=
        Ne.symm (keyFromSnapId_ne id objectPfxKey (by decide))
      have hseq2 : lookupKey st2.omap snapSeqKey = some (.vU64 id) := by
        rw [hshape, lookupKey_setVal_ne _ _ _ _ hne1, lookupKey_setVal_self]
      constructor
      · intro kv hkv rec hrec
        rw [hshape] at hkv
        rcases mem_setVal _ _ _ _ hkv with heq | hkv2
        · refine ⟨id, hseq2, ?_⟩
          rw [heq] at hrec
          simp only at hrec
          injection hrec with h3
          rw [← h3]
        · rcases mem_setVal _ _ _ _ hkv2 with heq | hkv3
          · rw [heq] at hrec
            exact absurd hrec (by simp)
          · obtain ⟨s2, hs2, hle2⟩ := ih.1 kv hkv3 rec hrec
            rw [hqs] at hs2
            injection hs2 with h3
            injection h3 with h4
            refine ⟨id, hseq2, ?_⟩
            omega
      · intro _
        rw [hshape, lookupKey_setVal_ne _ _ _ _ hne2,
          lookupKey_setVal_ne _ _ _ _ (by decide)]
        apply ih.2
        rw [hqs]
        exact fun hc => Option.noConfusion hc
    | snapRemoveS id h =>
      apply snapSeqInv_of_frameW st st2 ih
      rw [snapshotRemove_ok _ _ _ h]
      exact frameW_removeKeyL _ _
        (Ne.symm (keyFromSnapId_ne id snapSeqKey (by decide)))
        (Ne.symm (keyFromSnapId_ne id objectPfxKey (by decide)))
    | setParentS pool pimage snapid psize h =>
      obtain ⟨ov, hsh⟩ := setParent_ok _ _ _ _ _ _ h
      apply snapSeqInv_of_frameW st st2 ih
      rw [hsh]
      exact frameW_setVal _ _ _ (by decide) (by decide) (by intro rec; simp)
    | removeParentS h =>
      apply snapSeqInv_of_frameW st st2 ih
      rw [removeParent_ok _ _ h]
      exact frameW_removeKeyL _ _ (by decide) (by decide)
    | lockExS req c h =>
      simp only [lockImageExclusive] at h
      cases hrf : requireFeature st 0 with
      | error e => rw [hrf] at h; exact absurd h (by simp)
      | ok u =>
        rw [hrf] at h
        simp only at h
        obtain ⟨L, _, _, _, hst⟩ := lockImage_ok _ _ _ _ _ h
        apply snapSeqInv_of_frameW st st2 ih
        rw [hst]
        exact frameW_trans _ _ _
          (frameW_setVal _ _ _ (by decide) (by decide) (by intro rec; simp))
          (frameW_setVal _ _ _ (by decide) (by decide) (by intro rec; simp))
    | lockShS req c h =>
      simp only [lockImageShared] at h
      cases hrf : requireFeature st 0 with
      | error e => rw [hrf] at h; exact absurd h (by simp)
      | ok u =>
        rw [hrf] at h
        simp only at h
        obtain ⟨L, _, _, _, hst⟩ := lockImage_ok _ _ _ _ _ h
        apply snapSeqInv_of_frameW st st2 ih
        rw [hst]
        exact frameW_trans _ _ _
          (frameW_setVal _ _ _ (by decide) (by decide) (by intro rec; simp))
          (frameW_setVal _ _ _ (by decide) (by decide) (by intro rec; simp))
    | unlockS req c h =>
      simp only [unlockImage] at h
      cases hrf : requireFeature st 0 with
      | error e => rw [hrf] at h; exact absurd h (by simp)
      | ok u =>
        rw [hrf] at h
        simp only at h
        obtain ⟨L, _, _, hst⟩ := removeLock_ok _ _ _ _ h
        apply snapSeqInv_of_frameW st st2 ih
        rw [hst]
        exact frameW_setVal _ _ _ (by decide) (by decide) (by intro rec; simp)
    | breakS l c h =>
      simp only [breakLock] at h
      cases hrf : requireFeature st 0 with
      | error e => rw [hrf] at h; exact absurd h (by simp)
      | ok u =>
        rw [hrf] at h
        simp only at h
        obtain ⟨L, _, _, hst⟩ := removeLock_ok _ _ _ _ h
        apply snapSeqInv_of_frameW st st2 ih
        rw [hst]
        exact frameW_setVal _ _ _ (by decide) (by decide) (by intro rec; simp)

/-- C1: snap_seq is a monotonic high-water mark: in every reachable
state of a new-format image every stored snapshot record's id is at most
the stored snap_seq; snapshot_add with an id strictly below the current
snap_seq fails Stale; on success it writes the new record and
snap_seq = id as one two-key batched write touching nothing else; and
snapshot_remove never changes snap_seq. -/
theorem c1_snap_seq_high_water :
    (∀ st : Image, Reachable st → ∀ kv ∈ st.omap, ∀ rec : SnapRec,
       kv.2 = Val.vSnap rec →
       ∃ s, lookupKey st.omap snapSeqKey = some (.vU64 s) ∧ rec.id ≤ s) ∧
    (∀ st : Image, ∀ f s id : Nat, ∀ nm : String,
       lookupKey st.omap featuresKey = some (.vU64 f) →
       lookupKey st.omap snapSeqKey = some (.vU64 s) →
       id ≤ CEPH_MAXSNAP → id < s →
       snapshotAdd st nm id = .error .ESTALE) ∧
    (∀ st st2 : Image, ∀ nm : String, ∀ id : Nat,
       snapshotAdd st nm id = .ok st2 →
       ∃ sz ft pr, st2.omap = setVal (setVal st.omap snapSeqKey (.vU64 id))
           (keyFromSnapId id) (.vSnap ⟨id, nm, sz, ft, pr⟩) ∧
         lookupKey st2.omap snapSeqKey = some (.vU64 id) ∧
         lookupKey st2.omap (keyFromSnapId id) =
           some (.vSnap ⟨id, nm, sz, ft, pr⟩) ∧
         (∀ k, k ≠ snapSeqKey → k ≠ keyFromSnapId id →
            lookupKey st2.omap k = lookupKey st.omap k)) ∧
    (∀ st st2 : Image, ∀ id : Nat, snapshotRemove st id = .ok st2 →
       lookupKey st2.omap snapSeqKey = lookupKey st.omap snapSeqKey) := by
  refine ⟨?_, ?_, ?_, ?_⟩
  · intro st hst kv hkv rec hrec
    exact (reachable_snapSeqInv st hst).1 kv hkv rec hrec
  · intro st f s id nm hf hq hmax hlt
    have hreq : requireFeature st 0 = .ok () := by
      simp [requireFeature, readU64, hf]
    have hq2 : readU64 st.omap snapSeqKey = .ok s := by simp [readU64, hq]
    simp only [snapshotAdd, hreq]
    rw [if_neg (Nat.not_lt.mpr hmax)]
    simp only [hq2]
    rw [if_pos hlt]
  · intro st st2 nm id h
    obtain ⟨s, sz, ft, pr, hq, hle, hshape⟩ := snapshotAdd_ok _ _ _ _ h
    have hne1 : snapSeqKey ≠ keyFromSnapId id :=
      Ne.symm (keyFromSnapId_ne id snapSeqKey (by decide))
    refine ⟨sz, ft, pr, hshape, ?_, ?_, ?_⟩
    · rw [hshape, lookupKey_setVal_ne _ _ _ _ hne1, lookupKey_setVal_self]
    · rw [hshape, lookupKey_setVal_self]
    · intro k hk1 hk2
      rw [hshape, lookupKey_setVal_ne _ _ _ _ hk2,
        lookupKey_setVal_ne _ _ _ _ hk1]
  · intro st st2 id h
    rw [snapshotRemove_ok _ _ _ h]
    exact lookupKey_removeKeyL_ne _ _ _
      (Ne.symm (keyFromSnapId_ne id snapSeqKey (by decide)))

/-- Witness for C1: the image reached by create then snapshot_add("a",1)
satisfies the invariant; snapshot_add with id 0 then fails Stale; the
successful add wrote the record and snap_seq together; and removing the
snapshot leaves snap_seq untouched. -/
theorem c1_snap_seq_high_water_witness :
    (∃ s, lookupKey [("features", Val.vU64 1), ("object_prefix", Val.vStr "p"),
       ("order", Val.vU8 22), ("size", Val.vU64 1024), ("snap_seq", Val.vU64 1),
       ("snapshot_0000000000000001", Val.vSnap ⟨1, "a", 1024, 1, noParent⟩)]
       snapSeqKey = some (.vU64 s) ∧ 1 ≤ s) ∧
    snapshotAdd ⟨true, [("features", Val.vU64 1), ("object_prefix", Val.vStr "p"),
      ("order", Val.vU8 22), ("size", Val.vU64 1024), ("snap_seq", Val.vU64 1),
      ("snapshot_0000000000000001", Val.vSnap ⟨1, "a", 1024, 1, noParent⟩)]⟩
      "z" 0 = .error .ESTALE ∧
    (∃ sz ft pr, lookupKey [("features", Val.vU64 1),
       ("object_prefix", Val.vStr "p"), ("order", Val.vU8 22),
       ("size", Val.vU64 1024), ("snap_seq", Val.vU64 1),
       ("snapshot_0000000000000001", Val.vSnap ⟨1, "a", 1024, 1, noParent⟩)]
       (keyFromSnapId 1) = some (.vSnap ⟨1, "a", sz, ft, pr⟩) ∧
       lookupKey [("features", Val.vU64 1), ("object_prefix", Val.vStr "p"),
         ("order", Val.vU8 22), ("size", Val.vU64 1024), ("snap_seq", Val.vU64 1),
         ("snapshot_0000000000000001", Val.vSnap ⟨1, "a", 1024, 1, noParent⟩)]
         snapSeqKey = some (.vU64 1)) ∧
    lookupKey [("features", Val.vU64 1), ("object_prefix", Val.vStr "p"),
      ("order", Val.vU8 22), ("size", Val.vU64 1024), ("snap_seq", Val.vU64 1)]
      snapSeqKey =
      lookupKey [("features", Val.vU64 1), ("object_prefix", Val.vStr "p"),
        ("order", Val.vU8 22), ("size", Val.vU64 1024), ("snap_seq", Val.vU64 1),
        ("snapshot_0000000000000001", Val.vSnap ⟨1, "a", 1024, 1, noParent⟩)]
        snapSeqKey := by
  obtain ⟨p1, p2, p3, p4⟩ := c1_snap_seq_high_water
  have hscan : dupScan "a" 1 (snapEntries (⟨true, [("features", Val.vU64 1),
      ("object_prefix", Val.vStr "p"), ("order", Val.vU8 22),
      ("size", Val.vU64 1024), ("snap_seq", Val.vU64 0)]⟩ : Image).omap) =
      .ok () := by
    rw [dupScan_eq_linScan]
    rfl
  have hadd : snapshotAdd ⟨true, [("features", Val.vU64 1),
      ("object_prefix", Val.vStr "p"), ("order", Val.vU8 22),
      ("size", Val.vU64 1024), ("snap_seq", Val.vU64 0)]⟩ "a" 1 =
      .ok ⟨true, [("features", Val.vU64 1), ("object_prefix", Val.vStr "p"),
        ("order", Val.vU8 22), ("size", Val.vU64 1024), ("snap_seq", Val.vU64 1),
        ("snapshot_0000000000000001", Val.vSnap ⟨1, "a", 1024, 1, noParent⟩)]⟩ := by
    simp only [snapshotAdd, hscan]
    rfl
  have hrem : snapshotRemove ⟨true, [("features", Val.vU64 1),
      ("object_prefix", Val.vStr "p"), ("order", Val.vU8 22),
      ("size", Val.vU64 1024), ("snap_seq", Val.vU64 1),
      ("snapshot_0000000000000001", Val.vSnap ⟨1, "a", 1024, 1, noParent⟩)]⟩ 1 =
      .ok ⟨true, [("features", Val.vU64 1), ("object_prefix", Val.vStr "p"),
        ("order", Val.vU8 22), ("size", Val.vU64 1024),
        ("snap_seq", Val.vU64 1)]⟩ := by rfl
  have hr : Reachable ⟨true, [("features", Val.vU64 1),
      ("object_prefix", Val.vStr "p"), ("order", Val.vU8 22),
      ("size", Val.vU64 1024), ("snap_seq", Val.vU64 1),
      ("snapshot_0000000000000001", Val.vSnap ⟨1, "a", 1024, 1, noParent⟩)]⟩ := by
    apply Reachable.step _ _ (Reachable.step _ _ Reachable.init
      (Step.createS _ _ 1024 22 1 "p" (by rfl)))
    exact Step.snapAddS _ _ "a" 1 hadd
  refine ⟨?_, ?_, ?_, ?_⟩
  · exact p1 _ hr ("snapshot_0000000000000001",
      Val.vSnap ⟨1, "a", 1024, 1, noParent⟩) (by decide)
      ⟨1, "a", 1024, 1, noParent⟩ rfl
  · exact p2 _ 1 1 0 "z" (by decide) (by decide) (by decide) (by decide)
  · obtain ⟨sz, ft, pr, hsh, hseq, hkey, _⟩ := p3 _ _ "a" 1 hadd
    exact ⟨sz, ft, pr, hkey, hseq⟩
  · exact p4 _ _ 1 hrem

/-- The byte encoding of a name table: each name followed by its NUL
terminator, in order. -/
def encodeNames (nms : List (List Nat)) : List Nat :=
  nms.foldr (fun n acc => n ++ 0 :: acc) []

/-- Structural well-formedness of a legacy header with decoded name
list: counts and lengths match the stored fields and names are
NUL-free. -/
def OldWF (h : OldHeader) (nms : List (List Nat)) : Prop :=
  h.snaps.length = h.snap_count ∧ nms.length = h.snap_count ∧
  h.names = encodeNames nms ∧ h.snap_names_len = (encodeNames nms).length ∧
  (∀ nm ∈ nms, (0 : Nat) ∉ nm)

theorem encodeNames_cons (n : List Nat) (rest : List (List Nat)) :
    encodeNames (n :: rest) = n ++ 0 :: encodeNames rest := rfl

theorem encodeNames_append (a b : List (List Nat)) :
    encodeNames (a ++ b) = encodeNames a ++ encodeNames b := by
  induction a with
  | nil => rfl
  | cons n t ih => simp [encodeNames_cons, ih]

theorem cstrOf_nul_free (n : List Nat) (hn : (0 : Nat) ∉ n) : cstrOf n = n := by
  induction n with
  | nil => rfl
  | cons a t ih =>
    have ha : a ≠ 0 := fun h => hn (by simp [h])
    simp only [cstrOf, List.takeWhile_cons]
    rw [if_pos (by simpa using ha)]
    have := ih (fun h => hn (by simp [h]))
    simp only [cstrOf] at this
    rw [this]

theorem cstrOf_encoded (n t : List Nat) (hn : (0 : Nat) ∉ n) :
    cstrOf (n ++ 0 :: t) = n := by
  induction n with
  | nil => simp [cstrOf]
  | cons a n2 ih =>
    have ha : a ≠ 0 := fun h => hn (by simp [h])
    simp only [List.cons_append, cstrOf, List.takeWhile_cons]
    rw [if_pos (by simpa using ha)]
    have := ih (fun h => hn (by simp [h]))
    simp only [cstrOf] at this
    rw [this]

theorem strlenB_encoded (n t : List Nat) (hn : (0 : Nat) ∉ n) :
    strlenB (n ++ 0 :: t) = n.length := by
  have := cstrOf_encoded n t hn
  simp only [cstrOf] at this
  simp only [strlenB, this]

theorem drop_encoded (n t : List Nat) :
    (n ++ 0 :: t).drop (n.length + 1) = t := by
  have : n ++ 0 :: t = (n ++ [0]) ++ t := by simp
  rw [this]
  have hlen : (n ++ [0]).length = n.length + 1 := by simp
  rw [← hlen, List.drop_left]

theorem padTake_exact (l : List Nat) (n : Nat) (h : l.length = n) :
    padTake l n = l := by
  simp [padTake, h, List.take_of_length_le (Nat.le_of_eq h)]

theorem padTakeS_exact (l : List OldSnap) (n : Nat) (h : l.length = n) :
    padTakeS l n = l := by
  simp [padTakeS, h, List.take_of_length_le (Nat.le_of_eq h)]

theorem padTakeS_take (l : List OldSnap) (n : Nat) (h : n ≤ l.length) :
    padTakeS l n = l.take n := by
  simp [padTakeS, Nat.sub_eq_zero_of_le h]

theorem strncmpEq_self (n : List Nat) (hn : (0 : Nat) ∉ n) :
    ∀ t k, n.length + 1 ≤ k → strncmpEq (n ++ 0 :: t) n k = true := by
  induction n with
  | nil =>
    intro t k hk
    cases k with
    | zero => simp at hk
    | succ k2 => simp [strncmpEq]
  | cons a n2 ih =>
    intro t k hk
    have ha : a ≠ 0 := fun h => hn (by simp [h])
    cases k with
    | zero => simp at hk
    | succ k2 =>
      simp only [List.cons_append, strncmpEq, List.headD, List.tail]
      rw [if_neg (by simp), if_neg ha]
      exact ih (fun h => hn (by simp [h])) t k2 (by simpa using hk)

theorem strncmpEq_ne (n : List Nat) (hn : (0 : Nat) ∉ n) :
    ∀ nm t k, (0 : Nat) ∉ nm → n ≠ nm → n.length + 1 ≤ k →
      strncmpEq (n ++ 0 :: t) nm k = false := by
  induction n with
  | nil =>
    intro nm t k hnm hne hk
    cases k with
    | zero => simp at hk
    | succ k2 =>
      cases nm with
      | nil => exact absurd rfl hne
      | cons b nm2 =>
        have hb : b ≠ 0 := fun h => hnm (by simp [h])
        simp only [List.nil_append, strncmpEq, List.headD]
        rw [if_pos (by simpa using (Ne.symm hb))]
  | cons a n2 ih =>
    intro nm t k hnm hne hk
    have ha : a ≠ 0 := fun h => hn (by simp [h])
    cases k with
    | zero => simp at hk
    | succ k2 =>
      cases nm with
      | nil =>
        simp only [List.cons_append, strncmpEq, List.headD]
        rw [if_pos (by simpa using ha)]
      | cons b nm2 =>
        simp only [List.cons_append, strncmpEq, List.headD, List.tail]
        by_cases hab : a = b
        · rw [if_neg (by simpa using hab), if_neg ha]
          subst hab
          exact ih (fun h => hn (by simp [h])) nm2 t k2
            (fun h => hnm (by simp [h]))
            (fun h => hne (by rw [h])) (by simpa using hk)
        · rw [if_pos (by simpa using hab)]

theorem scanNames_notFound (nm : List Nat) (hnm : (0 : Nat) ∉ nm) :
    ∀ nms : List (List Nat), (∀ n ∈ nms, (0 : Nat) ∉ n) → nm ∉ nms →
      scanNames (encodeNames nms) nm = .notFound := by
  intro nms
  induction nms with
  | nil =>
    intro hall hmem
    rw [scanNames]
    simp [encodeNames]
  | cons n rest ih =>
    intro hall hmem
    have hn : (0 : Nat) ∉ n := hall n (by simp)
    have hne : n ≠ nm := fun h => hmem (by simp [h])
    rw [encodeNames_cons, scanNames]
    rw [dif_neg (by simp)]
    rw [if_neg (by
      rw [strncmpEq_ne n hn nm (encodeNames rest) _ hnm hne (by simp)]
      simp)]
    rw [dif_neg (by
      rw [strlenB_encoded n _ hn]
      simp)]
    rw [strlenB_encoded n _ hn, drop_encoded]
    exact ih (fun x hx => hall x (by simp [hx])) (fun hc => hmem (by simp [hc]))

theorem scanNames_found (nm : List Nat) (hnm : (0 : Nat) ∉ nm) :
    ∀ nms : List (List Nat), (∀ n ∈ nms, (0 : Nat) ∉ n) → nm ∈ nms →
      scanNames (encodeNames nms) nm = .found := by
  intro nms
  induction nms with
  | nil => intro _ hmem; simp at hmem
  | cons n rest ih =>
    intro hall hmem
    have hn : (0 : Nat) ∉ n := hall n (by simp)
    by_cases heq : n = nm
    · subst heq
      rw [encodeNames_cons, scanNames]
      rw [dif_neg (by simp)]
      rw [if_pos (strncmpEq_self n hn (encodeNames rest) _ (by simp))]
    · rw [encodeNames_cons, scanNames]
      rw [dif_neg (by simp)]
      rw [if_neg (by
        rw [strncmpEq_ne n hn nm (encodeNames rest) _ hnm heq (by simp)]
        simp)]
      rw [dif_neg (by
        rw [strlenB_encoded n _ hn]
        simp)]
      rw [strlenB_encoded n _ hn, drop_encoded]
      apply ih (fun x hx => hall x (by simp [hx]))
      rcases List.mem_cons.mp hmem with hc | hc
      · exact absurd hc.symm heq
      · exact hc

theorem findName_encoded (nm : List Nat) (hnm : (0 : Nat) ∉ nm) :
    ∀ pre : List (List Nat), ∀ post : List (List Nat),
      (∀ n ∈ pre, (0 : Nat) ∉ n) → nm ∉ pre →
      findName (encodeNames (pre ++ nm :: post)) nm =
        some (pre.length, (encodeNames pre).length) := by
  intro pre
  induction pre with
  | nil =>
    intro post _ _
    rw [List.nil_append, encodeNames_cons, findName]
    rw [dif_neg (by simp)]
    rw [if_pos (cstrOf_encoded nm _ hnm)]
    simp [encodeNames]
  | cons q pre2 ih =>
    intro post hall hpre
    have hq : (0 : Nat) ∉ q := hall q (by simp)
    have hqne : q ≠ nm := fun h => hpre (by simp [h])
    rw [List.cons_append, encodeNames_cons, findName]
    rw [dif_neg (by simp)]
    rw [if_neg (by
      rw [cstrOf_encoded q _ hq]
      exact hqne)]
    rw [strlenB_encoded q _ hq, drop_encoded]
    rw [ih post (fun x hx => hall x (by simp [hx])) (fun hc => hpre (by simp [hc]))]
    simp only [List.length_cons, encodeNames_cons]
    simp
    omega

theorem listWalk_wf :
    ∀ nms : List (List Nat), ∀ snaps : List OldSnap,
      snaps.length = nms.length → (∀ n ∈ nms, (0 : Nat) ∉ n) →
      listWalk snaps (encodeNames nms) nms.length =
        .ok (List.zipWith (fun d n2 => (d.id, d.image_size, n2)) snaps nms) := by
  intro nms
  induction nms with
  | nil =>
    intro snaps hlen _
    have : snaps = [] := List.eq_nil_of_length_eq_zero (by simpa using hlen)
    subst this
    rfl
  | cons n rest ih =>
    intro snaps hlen hall
    cases snaps with
    | nil => simp at hlen
    | cons d ds =>
      have hn : (0 : Nat) ∉ n := hall n (by simp)
      have hlen2 : ds.length = rest.length := by simpa using hlen
      rw [encodeNames_cons]
      show listWalk (d :: ds) (n ++ 0 :: encodeNames rest) (rest.length + 1) = _
      rw [listWalk]
      simp only [List.headD, List.tail]
      rw [strlenB_encoded n _ hn, cstrOf_encoded n _ hn, drop_encoded]
      rw [if_neg (by simp)]
      rw [ih ds hlen2 (fun x hx => hall x (by simp [hx]))]
      simp [List.zipWith]

theorem add32_real (a : Nat) (h : a + 1 < 2 ^ 32) : add32 a 1 = a + 1 :=
  Nat.mod_eq_of_lt h

theorem add64_real (a b : Nat) (h : a + b < 2 ^ 64) : add64 a b = a + b :=
  Nat.mod_eq_of_lt h

theorem sub32_real (a b : Nat) (hb : b ≤ a) (ha : a < 2 ^ 32) :
    sub32 a b = a - b := by
  have h32 : (2 : Nat) ^ 32 = 4294967296 := by norm_num
  simp only [sub32, h32] at *
  omega

theorem sub64_real (a b : Nat) (hb : b ≤ a) (ha : a < 2 ^ 64) :
    sub64 a b = a - b := by
  have h64 : (2 : Nat) ^ 64 = 18446744073709551616 := by norm_num
  simp only [sub64, h64] at *
  omega

theorem padTake_take (l : List Nat) (n : Nat) (h : n ≤ l.length) :
    padTake l n = l.take n := by
  simp [padTake, Nat.sub_eq_zero_of_le h]

/-- The header built by a successful old_snapshot_add on a well-formed
header. -/
def oldAddResult (h : OldHeader) (nm : List Nat) (id : Nat) : OldHeader :=
  { image_size := h.image_size, snap_seq := id,
    snap_count := h.snap_count + 1,
    snap_names_len := h.snap_names_len + (nm.length + 1),
    snaps := ⟨id, h.image_size⟩ :: h.snaps,
    names := nm ++ 0 :: h.names }

theorem oldAdd_spec (h : OldHeader) (nms : List (List Nat)) (nm : List Nat)
    (id : Nat) (hwf : OldWF h nms) (hnm : (0 : Nat) ∉ nm) (hfresh : nm ∉ nms)
    (hc32 : h.snap_count + 1 < 2 ^ 32)
    (hl64 : h.snap_names_len + (nm.length + 1) < 2 ^ 64) :
    ∃ h2, oldSnapshotAdd h nm id = .ok h2 ∧
      h2.snap_count = h.snap_count + 1 ∧
      h2.snap_names_len = h.snap_names_len + (nm.length + 1) ∧
      h2.snap_seq = id ∧ h2.image_size = h.image_size ∧
      h2.snaps = ⟨id, h.image_size⟩ :: h.snaps ∧
      h2.names = nm ++ 0 :: h.names ∧
      OldWF h2 (nm :: nms) ∧
      oldSnapshotsList h2 = .ok (id, h.snap_count + 1,
        (id, h.image_size, nm) ::
          List.zipWith (fun d n2 => (d.id, d.image_size, n2)) h.snaps nms) := by
  obtain ⟨w1, w2, w3, w4, w5⟩ := hwf
  have htbl : padTake h.names h.snap_names_len = h.names :=
    padTake_exact _ _ (by rw [w3, w4])
  have hcstr : cstrOf nm = nm := cstrOf_nul_free nm hnm
  have hscan : scanNames (padTake h.names h.snap_names_len) (cstrOf nm) =
      .notFound := by
    rw [htbl, hcstr, w3]
    exact scanNames_notFound nm hnm nms w5 hfresh
  have hpadS : padTakeS h.snaps h.snap_count = h.snaps := padTakeS_exact _ _ w1
  have hadd : oldSnapshotAdd h nm id = .ok (oldAddResult h nm id) := by
    simp only [oldSnapshotAdd, hscan, oldAddResult]
    rw [hcstr, htbl, hpadS, add32_real _ hc32, add64_real _ _ hl64]
  have hwf2 : OldWF (oldAddResult h nm id) (nm :: nms) := by
    simp only [oldAddResult]
    refine ⟨by simp [w1], by simp [w2], by rw [encodeNames_cons, w3], ?_, ?_⟩
    · rw [encodeNames_cons]
      simp only [List.length_append, List.length_cons, w4, w3]
      omega
    · intro x hx
      rcases List.mem_cons.mp hx with hc | hc
      · rw [hc]
        exact hnm
      · exact w5 x hc
  refine ⟨oldAddResult h nm id, hadd, rfl, rfl, rfl, rfl, rfl, rfl, hwf2, ?_⟩
  simp only [oldSnapshotsList, oldAddResult]
  have h2tbl : padTake (nm ++ 0 :: h.names)
      (h.snap_names_len + (nm.length + 1)) = nm ++ 0 :: h.names := by
    apply padTake_exact
    simp only [List.length_append, List.length_cons, w3, w4]
    omega
  have h2pad : padTakeS (⟨id, h.image_size⟩ :: h.snaps) (h.snap_count + 1) =
      ⟨id, h.image_size⟩ :: h.snaps := padTakeS_exact _ _ (by simp [w1])
  rw [h2tbl, h2pad]
  have hcount : h.snap_count + 1 = (nm :: nms).length := by simp [← w2]
  have hwalk := listWalk_wf (nm :: nms) (⟨id, h.image_size⟩ :: h.snaps)
    (by simp [w1, w2]) (by
      intro x hx
      rcases List.mem_cons.mp hx with hc | hc
      · rw [hc]; exact hnm
      · exact w5 x hc)
  rw [encodeNames_cons, ← w3] at hwalk
  simp only [List.length_cons, w2] at hwalk
  rw [hwalk]
  simp [List.zipWith]

theorem oldRemove_spec (h : OldHeader) (pre post : List (List Nat))
    (nm : List Nat) (hwf : OldWF h (pre ++ nm :: post)) (hnm : (0 : Nat) ∉ nm)
    (hpre : nm ∉ pre) (hc32 : h.snap_count < 2 ^ 32)
    (hl64 : h.snap_names_len < 2 ^ 64) :
    ∃ h2, oldSnapshotRemove h nm = .ok h2 ∧
      h2.snap_count = h.snap_count - 1 ∧
      h2.snap_seq = h.snap_seq ∧ h2.image_size = h.image_size ∧
      h2.snaps = h.snaps.take pre.length ++ h.snaps.drop (pre.length + 1) ∧
      h2.names = encodeNames (pre ++ post) ∧
      h2.snap_names_len = (encodeNames (pre ++ post)).length ∧
      OldWF h2 (pre ++ post) ∧
      oldSnapshotsList h2 = .ok (h.snap_seq, h.snap_count - 1,
        List.zipWith (fun d n2 => (d.id, d.image_size, n2))
          (h.snaps.take pre.length ++ h.snaps.drop (pre.length + 1))
          (pre ++ post)) := by
  obtain ⟨w1, w2, w3, w4, w5⟩ := hwf
  have hpx : ∀ x ∈ pre, (0 : Nat) ∉ x := fun x hx => w5 x (by simp [hx])
  have hppx : ∀ x ∈ pre ++ post, (0 : Nat) ∉ x := by
    intro x hx
    rcases List.mem_append.mp hx with hc | hc
    · exact hpx x hc
    · exact w5 x (by simp [hc])
  have htbl : padTake h.names h.snap_names_len = h.names :=
    padTake_exact _ _ (by rw [w3, w4])
  have hcstr : cstrOf nm = nm := cstrOf_nul_free nm hnm
  have hfind : findName (padTake h.names h.snap_names_len) (cstrOf nm) =
      some (pre.length, (encodeNames pre).length) := by
    rw [htbl, hcstr, w3]
    exact findName_encoded nm hnm pre post hpx hpre
  have hcnt : h.snap_count = pre.length + post.length + 1 := by
    rw [← w2]
    simp
    omega
  have hsnapslen : h.snaps.length = pre.length + post.length + 1 := by
    rw [w1, hcnt]
  have heL : h.snap_names_len =
      (encodeNames pre).length + (nm.length + 1) + (encodeNames post).length := by
    rw [w4, encodeNames_append, encodeNames_cons]
    simp only [List.length_append, List.length_cons]
    omega
  have hsub1 : sub32 h.snap_count 1 = h.snap_count - 1 :=
    sub32_real _ _ (by omega) hc32
  have hsub2 : sub64 h.snap_names_len (nm.length + 1) =
      h.snap_names_len - (nm.length + 1) := sub64_real _ _ (by omega) hl64
  have hnames_split : h.names =
      (encodeNames pre ++ (nm ++ [0])) ++ encodeNames post := by
    rw [w3, encodeNames_append, encodeNames_cons]
    simp
  have hlen2eq : h.snap_names_len - (nm.length + 1) =
      (encodeNames (pre ++ post)).length := by
    rw [encodeNames_append]
    simp only [List.length_append]
    omega
  simp only [oldSnapshotRemove, hfind, hsub1, hsub2]
  by_cases hzero : h.snap_count - 1 = 0
  · rw [if_pos hzero]
    have hp0 : pre.length = 0 := by omega
    have hq0 : post.length = 0 := by omega
    have hpe : pre = [] := List.eq_nil_of_length_eq_zero hp0
    have hqe : post = [] := List.eq_nil_of_length_eq_zero hq0
    subst hpe
    subst hqe
    have hdrop : h.snaps.drop 1 = [] := by
      apply List.drop_eq_nil_of_le
      omega
    refine ⟨_, rfl, rfl, rfl, rfl, ?_, ?_, ?_, ?_, ?_⟩
    · simp [hdrop]
    · rfl
    · simp only
      rw [hlen2eq]
    · refine ⟨by simp [hzero], by simp [hzero], rfl, ?_, by intro x hx; simp at hx⟩
      simp only
      rw [hlen2eq]
    · simp only [oldSnapshotsList]
      rw [hlen2eq]
      have : padTake ([] : List Nat) (encodeNames ([] ++ [] : List (List Nat))).length =
          [] := rfl
      rw [this]
      have hws : padTakeS ([] : List OldSnap) (h.snap_count - 1) = [] := by
        rw [hzero]
        rfl
      rw [hws, hzero]
      simp [listWalk, hdrop]
  · rw [if_neg hzero]
    have hple : pre.length ≤ h.snaps.length := by omega
    have hs1 : (if 0 < pre.length then padTakeS h.snaps pre.length else []) =
        h.snaps.take pre.length := by
      by_cases hp : 0 < pre.length
      · rw [if_pos hp, padTakeS_take _ _ (by omega)]
      · rw [if_neg hp]
        have hz : pre.length = 0 := by omega
        rw [hz]
        simp
    have hb1 : (if 0 < pre.length then
        listRead (padTake h.names h.snap_names_len) 0 (encodeNames pre).length
        else []) = encodeNames pre := by
      by_cases hp : 0 < pre.length
      · rw [if_pos hp, htbl]
        simp only [listRead, List.drop_zero]
        rw [padTake_take _ _ (by rw [hnames_split]; simp only [List.length_append]; omega)]
        rw [hnames_split, List.append_assoc, List.take_left]
      · rw [if_neg hp]
        have hz : pre = [] := List.eq_nil_of_length_eq_zero (by omega)
        rw [hz]
        rfl
    have hs2 : (if pre.length < h.snap_count - 1 then
        listReadS h.snaps (pre.length + 1) (h.snap_count - 1 - pre.length)
        else []) = h.snaps.drop (pre.length + 1) := by
      by_cases hq : pre.length < h.snap_count - 1
      · rw [if_pos hq]
        simp only [listReadS]
        apply padTakeS_exact
        simp only [List.length_drop]
        omega
      · rw [if_neg hq]
        exact (List.drop_eq_nil_of_le (by omega)).symm
    have hb2 : (if pre.length < h.snap_count - 1 then
        listRead (padTake h.names h.snap_names_len)
          ((encodeNames pre).length + nm.length + 1)
          (h.snap_names_len - ((encodeNames pre).length + (nm.length + 1)))
        else []) = encodeNames post := by
      by_cases hq : pre.length < h.snap_count - 1
      · rw [if_pos hq, htbl]
        simp only [listRead]
        have hoff : (encodeNames pre).length + nm.length + 1 =
            (encodeNames pre ++ (nm ++ [0])).length := by
          simp only [List.length_append, List.length_cons]
          simp
          omega
        rw [hnames_split, hoff, List.drop_left]
        apply padTake_exact
        omega
      · rw [if_neg hq]
        have hz : post = [] := List.eq_nil_of_length_eq_zero (by omega)
        rw [hz]
        rfl
    rw [hs1, hb1, hs2, hb2]
    have hlenS : (h.snaps.take pre.length ++
        h.snaps.drop (pre.length + 1)).length = h.snap_count - 1 := by
      simp only [List.length_append, List.length_take, List.length_drop]
      omega
    rw [padTakeS_exact _ _ hlenS]
    rw [← encodeNames_append]
    rw [padTake_exact _ _ hlen2eq.symm]
    refine ⟨_, rfl, rfl, rfl, rfl, rfl, rfl, ?_, ?_, ?_⟩
    · simp only
      rw [hlen2eq]
    · refine ⟨by simp only; omega, by simp only; simp; omega, rfl, ?_, hppx⟩
      simp only
      rw [hlen2eq]
    · simp only [oldSnapshotsList]
      rw [hlen2eq]
      rw [padTake_exact _ _ rfl]
      have hcc : h.snap_count - 1 = (pre ++ post).length := by
        simp
        omega
      rw [hcc, padTakeS_exact _ _ (by rw [← hcc]; exact hlenS)]
      have hwalk := listWalk_wf (pre ++ post)
        (h.snaps.take pre.length ++ h.snaps.drop (pre.length + 1))
        (by rw [hlenS, hcc]) hppx
      rw [hwalk]

/-- **C7.** Legacy codec round-trip: on a well-formed legacy header buffer,
`old_snapshot_add(name, id)` produces a header with `snap_count + 1`,
`snap_names_len` grown by `len(name) + 1`, `snap_seq = id`, and
`old_snapshots_list` then reports `(id, current image_size, name)` as the
first entry ahead of the unchanged existing triples; and
`old_snapshot_remove(name)` deletes exactly that descriptor/name pair,
leaving every remaining `(id, size, name)` triple unchanged and contiguous,
with `snap_names_len` equal to the total length of the remaining
NUL-terminated name table. -/
theorem c7_old_codec_roundtrip
    (h : OldHeader) (nms : List (List Nat)) (nm : List Nat) (id : Nat)
    (hr : OldHeader) (pre post : List (List Nat)) (nmr : List Nat)
    (hwf : OldWF h nms) (hnm : (0 : Nat) ∉ nm) (hfresh : nm ∉ nms)
    (hc32 : h.snap_count + 1 < 2 ^ 32)
    (hl64 : h.snap_names_len + (nm.length + 1) < 2 ^ 64)
    (hwfR : OldWF hr (pre ++ nmr :: post)) (hnmr : (0 : Nat) ∉ nmr)
    (hpreR : nmr ∉ pre) (hc32R : hr.snap_count < 2 ^ 32)
    (hl64R : hr.snap_names_len < 2 ^ 64) :
    (∃ h2, oldSnapshotAdd h nm id = .ok h2 ∧
      h2.snap_count = h.snap_count + 1 ∧
      h2.snap_names_len = h.snap_names_len + (nm.length + 1) ∧
      h2.snap_seq = id ∧
      oldSnapshotsList h2 = .ok (id, h.snap_count + 1,
        (id, h.image_size, nm) ::
          List.zipWith (fun d n2 => (d.id, d.image_size, n2)) h.snaps nms)) ∧
    (∃ h3, oldSnapshotRemove hr nmr = .ok h3 ∧
      h3.snap_count = hr.snap_count - 1 ∧
      h3.names = encodeNames (pre ++ post) ∧
      h3.snap_names_len = (encodeNames (pre ++ post)).length ∧
      oldSnapshotsList h3 = .ok (hr.snap_seq, hr.snap_count - 1,
        List.zipWith (fun d n2 => (d.id, d.image_size, n2))
          (hr.snaps.take pre.length ++ hr.snaps.drop (pre.length + 1))
          (pre ++ post))) := by
  constructor
  · obtain ⟨h2, ha, hb, hc, hd, _, _, _, _, hlist⟩ :=
      oldAdd_spec h nms nm id hwf hnm hfresh hc32 hl64
    exact ⟨h2, ha, hb, hc, hd, hlist⟩
  · obtain ⟨h3, ha, hb, _, _, _, hn, hc, _, hlist⟩ :=
      oldRemove_spec hr pre post nmr hwfR hnmr hpreR hc32R hl64R
    exact ⟨h3, ha, hb, hn, hc, hlist⟩

theorem c7_old_codec_roundtrip_witness :
    (∃ h2, oldSnapshotAdd ⟨1024, 3, 1, 3, [⟨3, 1024⟩], [97, 98, 0]⟩ [99] 7 =
        .ok h2 ∧
      h2.snap_count = 1 + 1 ∧
      h2.snap_names_len = 3 + (List.length [99] + 1) ∧
      h2.snap_seq = 7 ∧
      oldSnapshotsList h2 = .ok (7, 1 + 1,
        (7, 1024, [99]) ::
          List.zipWith (fun d n2 => (d.id, d.image_size, n2))
            [(⟨3, 1024⟩ : OldSnap)] [[97, 98]])) ∧
    (∃ h3, oldSnapshotRemove ⟨1024, 3, 1, 3, [⟨3, 1024⟩], [97, 98, 0]⟩
        [97, 98] = .ok h3 ∧
      h3.snap_count = 1 - 1 ∧
      h3.names = encodeNames ([] ++ []) ∧
      h3.snap_names_len = (encodeNames ([] ++ [])).length ∧
      oldSnapshotsList h3 = .ok (3, 1 - 1,
        List.zipWith (fun d n2 => (d.id, d.image_size, n2))
          (List.take (List.length ([] : List (List Nat)))
              [(⟨3, 1024⟩ : OldSnap)] ++
            List.drop (List.length ([] : List (List Nat)) + 1)
              [(⟨3, 1024⟩ : OldSnap)])
          ([] ++ []))) :=
  c7_old_codec_roundtrip ⟨1024, 3, 1, 3, [⟨3, 1024⟩], [97, 98, 0]⟩
    [[97, 98]] [99] 7 ⟨1024, 3, 1, 3, [⟨3, 1024⟩], [97, 98, 0]⟩ [] [] [97, 98]
    ⟨rfl, rfl, rfl, rfl, by decide⟩ (by decide) (by decide) (by decide)
    (by decide) ⟨rfl, rfl, rfl, rfl, by decide⟩ (by decide) (by decide)
    (by decide) (by decide)
